import Mathlib

/-!
Verification development for the aggravator inventory aggregator.

The repository holds two evolutions of the same program:
* `inventory.py` — the legacy standalone script, whose merge engine is
  `merge_lists` / `host_dict_merge` / `host_group_iterate` and whose builder is
  `Inventory.fetch_merge_hosts` / `Inventory.fetch_merge_vars` /
  `Inventory.generate_inventory`;
* `aggravator/__init__.py` — the packaged CLI, whose loader is `fetch_data`
  (format inference, transport dispatch, vault handling) and whose URI
  resolution is `Inventory.fetch`.

Python values parsed from YAML/JSON are modelled by the tree type `Value`:
mappings are insertion-ordered association lists with string keys (Python
dicts preserve insertion order, keep the position of a key on overwrite, and
append new keys), sequences are Lean lists, scalars are null / string /
integer.  Fallible Python code (raised exceptions) is modelled with
`Except String`.  Fetching over file/HTTP transports and YAML/JSON parsing are
external capabilities and enter as function parameters.
-/

set_option maxRecDepth 4096

/-- A parsed YAML/JSON tree value: null, string or integer scalars, sequences,
and insertion-ordered mappings with string keys. -/
inductive Value where
  | null
  | str (s : String)
  | int (n : Int)
  | list (xs : List Value)
  | dict (kvs : List (String × Value))
deriving Inhabited

mutual

/-- Structural equality test on tree values. -/
def veq : Value → Value → Bool
  | .null, .null => true
  | .str a, .str b => a == b
  | .int a, .int b => a == b
  | .list xs, .list ys => veqList xs ys
  | .dict xs, .dict ys => veqKVs xs ys
  | _, _ => false

/-- Pointwise `veq` on sequences. -/
def veqList : List Value → List Value → Bool
  | [], [] => true
  | x :: xs, y :: ys => veq x y && veqList xs ys
  | _, _ => false

/-- Pointwise `veq` on mapping entry lists. -/
def veqKVs : List (String × Value) → List (String × Value) → Bool
  | [], [] => true
  | (k, v) :: xs, (l, w) :: ys => k == l && veq v w && veqKVs xs ys
  | _, _ => false

end

mutual

theorem veq_iff : (a b : Value) → (veq a b = true ↔ a = b)
  | .null, b => by cases b <;> simp [veq]
  | .str s, b => by cases b <;> simp [veq]
  | .int n, b => by cases b <;> simp [veq]
  | .list xs, b => by
      cases b <;> simp [veq]
      exact veqList_iff xs _
  | .dict kvs, b => by
      cases b <;> simp [veq]
      exact veqKVs_iff kvs _

theorem veqList_iff : (xs ys : List Value) → (veqList xs ys = true ↔ xs = ys)
  | [], ys => by cases ys <;> simp [veqList]
  | x :: xs, [] => by simp [veqList]
  | x :: xs, y :: ys => by
      simp [veqList, Bool.and_eq_true, veq_iff x y, veqList_iff xs ys]

theorem veqKVs_iff : (xs ys : List (String × Value)) → (veqKVs xs ys = true ↔ xs = ys)
  | [], ys => by cases ys <;> simp [veqKVs]
  | x :: xs, [] => by simp [veqKVs]
  | (k, v) :: xs, (l, w) :: ys => by
      simp [veqKVs, Bool.and_eq_true, veq_iff v w, veqKVs_iff xs ys, and_assoc]

end

instance : DecidableEq Value := fun a b => decidable_of_iff (veq a b = true) (veq_iff a b)

/-- First-match lookup in an insertion-ordered mapping, `d.get(key)`. -/
def alookup : List (String × Value) → String → Option Value
  | [], _ => none
  | (k, v) :: rest, key => if k = key then some v else alookup rest key

/-- `d[key] = v` on a Python dict: overwrite in place keeping the key's
position, or append a new key at the end. -/
def aset : List (String × Value) → String → Value → List (String × Value)
  | [], key, v => [(key, v)]
  | (k, w) :: rest, key, v =>
      if k = key then (k, v) :: rest else (k, w) :: aset rest key v

/-- `base.update(src)` on Python dicts: shallow, key-by-key overwrite of
`base` by the entries of `src` in order. -/
def aupdate (base : List (String × Value)) : List (String × Value) → List (String × Value)
  | [] => base
  | (k, v) :: rest => aupdate (aset base k v) rest

/-- Python `type(x).__name__` for the modelled value kinds. -/
def type_name : Value → String
  | .null => "NoneType"
  | .str _ => "str"
  | .int _ => "int"
  | .list _ => "list"
  | .dict _ => "dict"

/-- A scalar in the sense of the spec data model: string, number or null. -/
def isScalar : Value → Bool
  | .null => true
  | .str _ => true
  | .int _ => true
  | _ => false

/-- Python hashability of the modelled values: scalars are hashable, lists
and dicts are not. -/
def hashable : Value → Bool := isScalar

/-- Follow a key path through nested mappings. -/
def vpath : Value → List String → Option Value
  | v, [] => some v
  | .dict kvs, k :: ks =>
      match alookup kvs k with
      | some v => vpath v ks
      | none => none
  | _, _ :: _ => none

mutual

/-- `true` iff the string `t` occurs in the tree as a mapping key or as a
string scalar.  Used to express "no fragment defined `platform_name`". -/
def mentionsStr (t : String) : Value → Bool
  | .str s => s == t
  | .list xs => mentionsStrList t xs
  | .dict kvs => mentionsStrKVs t kvs
  | .null => false
  | .int _ => false

/-- `mentionsStr` over the elements of a sequence. -/
def mentionsStrList (t : String) : List Value → Bool
  | [] => false
  | x :: xs => mentionsStr t x || mentionsStrList t xs

/-- `mentionsStr` over the entries of a mapping: keys and values. -/
def mentionsStrKVs (t : String) : List (String × Value) → Bool
  | [] => false
  | (k, v) :: rest => k == t || mentionsStr t v || mentionsStrKVs t rest

end

/-- The message built by `raise_for_type` in both source files:
`"invalid type '<t>' in section '<sect>', must be: <allowed>"`. -/
def type_mismatch_msg (item : Value) (allowed : List String) (sect : String) : String :=
  "invalid type '" ++ type_name item ++ "' in section '" ++ sect ++
    "', must be: " ++ String.intercalate ", " allowed

/-- `raise_for_type(item, types, section)` (`inventory.py` lines 132–154 and
`aggravator/__init__.py` lines 155–177): raise `AttributeError` unless the
value's runtime type is among `allowed`. -/
def raise_for_type (item : Value) (allowed : List String) (sect : String) : Except String Unit :=
  if allowed.contains (type_name item) then .ok ()
  else .error (type_mismatch_msg item allowed sect)

/-- Python `set(v)`: build the (deduplicated) element list of an iterable.
A list yields its elements provided all are hashable; a dict yields its keys;
a string yields its one-character substrings; `None` and integers are not
iterable.  The iteration order of a Python `set` is unspecified, so the model
fixes one duplicate-free enumeration; the theorems below only use
order-insensitive properties (membership and duplicate-freedom). -/
def pySet : Value → Except String (List Value)
  | .list xs =>
      if xs.all hashable then .ok xs.dedup
      else .error "TypeError: unhashable type"
  | .dict kvs => .ok ((kvs.map (fun kv => Value.str kv.1)).dedup)
  | .str s => .ok ((s.data.map (fun c => Value.str (String.mk [c]))).dedup)
  | v => .error ("TypeError: '" ++ type_name v ++ "' object is not iterable")

/-- `merge_lists(list1, list2)` (`inventory.py` lines 157–159):
`list(set(list1) | set(list2))` — duplicate-free set union of the two
iterables. -/
def merge_lists (v1 v2 : Value) : Except String (List Value) :=
  match pySet v1 with
  | .error e => .error e
  | .ok s1 =>
      match pySet v2 with
      | .error e => .error e
      | .ok s2 => .ok ((s1 ++ s2).dedup)

/-- `convert_host_list_to_dict(hostlist)` (`inventory.py` lines 162–169): a
list becomes `{'hosts': hostlist}`, a dict passes through (a mapping is
identified with its entry list here), anything else raises. -/
def convert_host_list_to_dict : Value → Except String (List (String × Value))
  | .list xs => .ok [("hosts", Value.list xs)]
  | .dict kvs => .ok kvs
  | _ => .error "input object should be list or dict!"

/-- The loop body of `host_dict_merge` (`inventory.py` lines 172–188),
iterating the entries of `dict2` over the accumulator `data` (which starts as
`dict1.copy()`).  A sequence value unions via `merge_lists` with
`data.get(subkey, [])`; a mapping value is overlaid with `dict.update` onto
`data.get(subkey, {})` (which must itself be a mapping, otherwise Python's
`.update` attribute lookup raises); any other value raises through
`raise_for_type`.  This captures the value computed by the Python function;
the in-place aliasing effects of its shallow copy are modelled separately by
`PyHeap.host_dict_merge`. -/
def host_dict_merge_loop (data : List (String × Value)) (sect : String) :
    List (String × Value) → Except String (List (String × Value))
  | [] => .ok data
  | (subkey, v2) :: rest =>
      match v2 with
      | .list l2 =>
          match merge_lists ((alookup data subkey).getD (.list [])) (.list l2) with
          | .ok u => host_dict_merge_loop (aset data subkey (.list u)) sect rest
          | .error e => .error e
      | .dict kvs2 =>
          match (alookup data subkey).getD (.dict []) with
          | .dict c =>
              host_dict_merge_loop (aset data subkey (.dict (aupdate c kvs2))) sect rest
          | other =>
              .error ("AttributeError: '" ++ type_name other ++
                "' object has no attribute 'update'")
      | _ => .error (type_mismatch_msg v2 ["list", "dict"] (sect ++ ":" ++ subkey))

/-- `host_dict_merge(dict1, dict2, section)` (`inventory.py` lines 172–188). -/
def host_dict_merge (dict1 dict2 : List (String × Value)) (sect : String) :
    Except String (List (String × Value)) :=
  host_dict_merge_loop dict1 sect dict2

/-- The loop body of `host_group_iterate` (`inventory.py` lines 191–209) over
the entries of `obj2`.  A top-level `_meta` key of the incoming fragment is
skipped; a key absent from the accumulator (or mapped to `None`) takes the
incoming value verbatim; otherwise both sides are normalized with
`convert_host_list_to_dict`, the incoming value is type-checked, and the two
are merged with `host_dict_merge`. -/
def host_group_iterate_loop (data : List (String × Value)) (sect : String) :
    List (String × Value) → Except String (List (String × Value))
  | [] => .ok data
  | (key, v) :: rest =>
      if key = "_meta" then host_group_iterate_loop data sect rest
      else
        match alookup data key with
        | none => host_group_iterate_loop (aset data key v) sect rest
        | some .null => host_group_iterate_loop (aset data key v) sect rest
        | some cur =>
            match convert_host_list_to_dict cur with
            | .error e => .error e
            | .ok c =>
                match raise_for_type v ["list", "dict"] (sect ++ ":" ++ key) with
                | .error e => .error e
                | .ok _ =>
                    match convert_host_list_to_dict v with
                    | .error e => .error e
                    | .ok d =>
                        match host_dict_merge c d sect with
                        | .error e => .error e
                        | .ok m => host_group_iterate_loop (aset data key (.dict m)) sect rest

/-- `host_group_iterate(obj1, obj2, section)` (`inventory.py` lines 191–209). -/
def host_group_iterate (obj1 obj2 : List (String × Value)) (sect : String) :
    Except String (List (String × Value)) :=
  host_group_iterate_loop obj1 sect obj2

/-- Python `v.get(key, default)`: requires `v` to be a mapping, otherwise the
attribute lookup raises. -/
def pyGet (v : Value) (key : String) (default : Value) : Except String Value :=
  match v with
  | .dict kvs => .ok ((alookup kvs key).getD default)
  | _ => .error ("AttributeError: '" ++ type_name v ++ "' object has no attribute 'get'")

/-- Python `for x in v`: a list yields its elements, a dict its keys, a
string its characters; `None` and integers are not iterable. -/
def iterList (v : Value) : Except String (List Value) :=
  match v with
  | .list xs => .ok xs
  | .dict kvs => .ok (kvs.map (fun kv => Value.str kv.1))
  | .str s => .ok (s.data.map (fun c => Value.str (String.mk [c])))
  | w => .error ("TypeError: '" ++ type_name w ++ "' object is not iterable")

/-- The include list of one category:
`self.config.get('environments', {}).get(env, {}).get(section, [])`, then the
iteration of a `for` loop over it (`inventory.py` lines 246, 268). -/
def includes_of (config : Value) (env sect : String) : Except String (List Value) :=
  match pyGet config "environments" (.dict []) with
  | .error e => .error e
  | .ok envs =>
      match pyGet envs env (.dict []) with
      | .error e => .error e
      | .ok envcfg =>
          match pyGet envcfg sect (.list []) with
          | .error e => .error e
          | .ok incs => iterList incs

/-- One bare (string) include of `fetch_merge_hosts`: the fetched fragment is
fed to `host_group_iterate`.  Iterating a non-mapping fragment in Python
indexes the fragment with its own element (`data2[key]`), a `TypeError`,
except when there is nothing to iterate (empty list / empty string) or every
element is the skipped `'_meta'` marker. -/
def hosts_bare_step (data : List (String × Value)) (sect : String) (temp : Value) :
    Except String (List (String × Value)) :=
  match temp with
  | .dict t => host_group_iterate data t sect
  | .list xs =>
      if xs.all (· = Value.str "_meta") then .ok data
      else .error "TypeError: list indices must be integers or slices, not str"
  | .str s =>
      if s = "" then .ok data
      else .error "TypeError: string indices must be integers"
  | w => .error ("TypeError: '" ++ type_name w ++ "' object is not iterable")

/-- Extract the `path` entry of a structured include and require a string
(Python would pass a non-string straight into `urlparse`, which raises for
the modelled non-string values). -/
def inc_path (kvs : List (String × Value)) : Except String String :=
  match alookup kvs "path" with
  | some (.str s) => .ok s
  | some _ => .error "TypeError: unsupported path value"
  | none => .error "KeyError: 'path'"

/-- Extract the `key` entry of a structured include; the model restricts keys
to strings (the only shape the data model gives mapping keys). -/
def inc_key (kvs : List (String × Value)) : Except String String :=
  match alookup kvs "key" with
  | some (.str s) => .ok s
  | some _ => .error "TypeError: unsupported key value"
  | none => .error "KeyError: 'key'"

/-- The loop body of `Inventory.fetch_merge_hosts` (`inventory.py` lines
243–263) over the include entries of one section.  `fetchFn` is the
resolve-and-fetch capability `self.fetch`.  A bare string include merges the
fetched fragment with `host_group_iterate`; a structured include fetches
`inc['path']` and merges `convert_host_list_to_dict(temp)` into
`data[inc['key']]` with `host_dict_merge` (whose first argument
`data.get(key, {})` must be a mapping for its `.copy()`/`.get` calls to
succeed, except that a non-empty incoming never reaches them on a list —
Python raises there as well — and an *empty* incoming mapping returns the
list unchanged); anything else raises through `raise_for_type`. -/
def fetch_merge_hosts_loop (fetchFn : String → Except String Value) (sect : String)
    (data : List (String × Value)) :
    List Value → Except String (List (String × Value))
  | [] => .ok data
  | inc :: rest =>
      match inc with
      | .str s =>
          match fetchFn s with
          | .error e => .error e
          | .ok temp =>
              match hosts_bare_step data sect temp with
              | .error e => .error e
              | .ok d => fetch_merge_hosts_loop fetchFn sect d rest
      | .dict kvs =>
          match inc_path kvs with
          | .error e => .error e
          | .ok p =>
              match fetchFn p with
              | .error e => .error e
              | .ok temp =>
                  match inc_key kvs with
                  | .error e => .error e
                  | .ok key =>
                      match convert_host_list_to_dict temp with
                      | .error e => .error e
                      | .ok conv =>
                          match (alookup data key).getD (.dict []) with
                          | .dict c =>
                              match host_dict_merge c conv sect with
                              | .error e => .error e
                              | .ok m => fetch_merge_hosts_loop fetchFn sect (aset data key (.dict m)) rest
                          | .list l =>
                              match conv with
                              | [] => fetch_merge_hosts_loop fetchFn sect (aset data key (.list l)) rest
                              | _ => .error "AttributeError: 'list' object has no attribute 'get'"
                          | w => .error ("AttributeError: '" ++ type_name w ++
                              "' object has no attribute 'copy'")
      | _ => .error (type_mismatch_msg inc ["str", "dict"] sect)

/-- `Inventory.fetch_merge_hosts(section)` (`inventory.py` lines 243–263),
with the configuration, environment name and fetch capability passed
explicitly in place of `self`. -/
def fetch_merge_hosts (config : Value) (env : String)
    (fetchFn : String → Except String Value) (sect : String) :
    Except String (List (String × Value)) :=
  match includes_of config env sect with
  | .error e => .error e
  | .ok incs => fetch_merge_hosts_loop fetchFn sect [] incs

/-- The inner loop of a bare include in `Inventory.fetch_merge_vars`
(`inventory.py` lines 272–275): for each key of the fragment,
`data[key] = data.get(key, {})` then `data[key].update(temp[key])`.
`dict.update` with a non-mapping argument is modelled as a `TypeError` (its
iterable-of-pairs calling form never arises from parsed YAML/JSON mappings,
whose values are the tree values modelled here). -/
def vars_update_loop (data : List (String × Value)) :
    List (String × Value) → Except String (List (String × Value))
  | [] => .ok data
  | (key, tv) :: rest =>
      match (alookup data key).getD (.dict []) with
      | .dict c =>
          match tv with
          | .dict t2 => vars_update_loop (aset data key (.dict (aupdate c t2))) rest
          | _ => .error "TypeError: update expected a mapping"
      | w => .error ("AttributeError: '" ++ type_name w ++ "' object has no attribute 'update'")

/-- The loop body of `Inventory.fetch_merge_vars` (`inventory.py` lines
265–284).  A bare include iterates the fetched fragment's keys and overlays
each value with `dict.update`; a structured include overlays the whole
fragment onto `data[inc['key']]`. -/
def fetch_merge_vars_loop (fetchFn : String → Except String Value) (sect : String)
    (data : List (String × Value)) :
    List Value → Except String (List (String × Value))
  | [] => .ok data
  | inc :: rest =>
      match inc with
      | .str s =>
          match fetchFn s with
          | .error e => .error e
          | .ok temp =>
              match temp with
              | .dict t =>
                  match vars_update_loop data t with
                  | .error e => .error e
                  | .ok d => fetch_merge_vars_loop fetchFn sect d rest
              | .list [] => fetch_merge_vars_loop fetchFn sect data rest
              | .list (_ :: _) =>
                  .error "TypeError: list indices must be integers or slices, not str"
              | .str s0 =>
                  if s0 = "" then fetch_merge_vars_loop fetchFn sect data rest
                  else .error "TypeError: string indices must be integers"
              | w => .error ("TypeError: '" ++ type_name w ++ "' object is not iterable")
      | .dict kvs =>
          match inc_path kvs with
          | .error e => .error e
          | .ok p =>
              match fetchFn p with
              | .error e => .error e
              | .ok temp =>
                  match inc_key kvs with
                  | .error e => .error e
                  | .ok key =>
                      match (alookup data key).getD (.dict []) with
                      | .dict c =>
                          match temp with
                          | .dict t => fetch_merge_vars_loop fetchFn sect (aset data key (.dict (aupdate c t))) rest
                          | _ => .error "TypeError: update expected a mapping"
                      | w => .error ("AttributeError: '" ++ type_name w ++
                          "' object has no attribute 'update'")
      | _ => .error (type_mismatch_msg inc ["str", "dict"] sect)

/-- `Inventory.fetch_merge_vars(section)` (`inventory.py` lines 265–284). -/
def fetch_merge_vars (config : Value) (env : String)
    (fetchFn : String → Except String Value) (sect : String) :
    Except String (List (String × Value)) :=
  match includes_of config env sect with
  | .error e => .error e
  | .ok incs => fetch_merge_vars_loop fetchFn sect [] incs

/-- The group-vars overlay loop of `Inventory.generate_inventory`
(`inventory.py` lines 300–307): for each group in `groupvars`, make sure the
inventory's entry is a mapping (converting a bare host list to
`{'hosts': …}`), then overlay the group's variables onto its `vars`
sub-mapping. -/
def groupvars_loop (invdata : List (String × Value)) :
    List (String × Value) → Except String (List (String × Value))
  | [] => .ok invdata
  | (key, gv) :: rest =>
      match (alookup invdata key).getD (.dict []) with
      | .list xs =>
          match gv with
          | .dict g =>
              groupvars_loop
                (aset invdata key (.dict (aset [("hosts", Value.list xs)] "vars"
                  (.dict (aupdate [] g))))) rest
          | _ => .error "TypeError: update expected a mapping"
      | .dict kvs =>
          match (alookup kvs "vars").getD (.dict []) with
          | .dict vk =>
              match gv with
              | .dict g =>
                  groupvars_loop (aset invdata key (.dict (aset kvs "vars"
                    (.dict (aupdate vk g))))) rest
              | _ => .error "TypeError: update expected a mapping"
          | w => .error ("AttributeError: '" ++ type_name w ++
              "' object has no attribute 'update'")
      | w => .error (type_mismatch_msg w ["list", "dict"] ("groupvars:" ++ key))

/-- The host-vars overlay loop of `Inventory.generate_inventory`
(`inventory.py` lines 316–320), over the entries of `_meta.hostvars`. -/
def hostvars_inner (m : List (String × Value)) :
    List (String × Value) → Except String (List (String × Value))
  | [] => .ok m
  | (key, hvv) :: rest =>
      match (alookup m key).getD (.dict []) with
      | .dict c =>
          match hvv with
          | .dict h => hostvars_inner (aset m key (.dict (aupdate c h))) rest
          | _ => .error "TypeError: update expected a mapping"
      | w => .error (type_mismatch_msg w ["dict"] ("hostvars:" ++ key))

/-- `mhvars = invdata['_meta']['hostvars']` followed by the host-vars loop:
when the loop body never runs, Python performs no attribute access on
`mhvars` at all. -/
def hostvars_loop (mhv : Value) (hostvars : List (String × Value)) : Except String Value :=
  match hostvars with
  | [] => .ok mhv
  | _ =>
      match mhv with
      | .dict m =>
          match hostvars_inner m hostvars with
          | .error e => .error e
          | .ok m2 => .ok (.dict m2)
      | w => .error ("AttributeError: '" ++ type_name w ++ "' object has no attribute 'get'")

/-- `Inventory.generate_inventory` (`inventory.py` lines 286–322): fetch and
merge the three fragment categories, force `_meta.hostvars` to exist as a
mapping, overlay group variables onto each group's `vars`, default
`all.vars.platform_name` to the environment name, and overlay host variables
into `_meta.hostvars`.  The two reads through `invdata['_meta']` and
`invdata['all']` require mappings at those keys, as in Python, where a
non-mapping raises on the subsequent `.get` or item assignment. -/
def generate_inventory (config : Value) (env : String)
    (fetchFn : String → Except String Value) : Except String Value :=
  match fetch_merge_vars config env fetchFn "include_group_vars" with
  | .error e => .error e
  | .ok groupvars =>
      match fetch_merge_vars config env fetchFn "include_host_vars" with
      | .error e => .error e
      | .ok hostvars =>
          match fetch_merge_hosts config env fetchFn "include_hosts" with
          | .error e => .error e
          | .ok invdata0 =>
              match (alookup invdata0 "_meta").getD (.dict []) with
              | .dict meta0 =>
                  match (alookup meta0 "hostvars").getD (.dict []) with
                  | .dict hv =>
                      match groupvars_loop
                          (aset invdata0 "_meta" (.dict (aset meta0 "hostvars" (.dict hv))))
                          groupvars with
                      | .error e => .error e
                      | .ok invdata1 =>
                          match (alookup invdata1 "all").getD (.dict []) with
                          | .dict alld =>
                              match (alookup alld "vars").getD (.dict []) with
                              | .dict varsd =>
                                  let pn := (alookup varsd "platform_name").getD (.str env)
                                  let invdata2 :=
                                    aset invdata1 "all" (.dict (aset alld "vars"
                                      (.dict (aset varsd "platform_name" pn))))
                                  match alookup invdata2 "_meta" with
                                  | some (.dict m) =>
                                      match alookup m "hostvars" with
                                      | some mhv =>
                                          match hostvars_loop mhv hostvars with
                                          | .error e => .error e
                                          | .ok mhv2 =>
                                              .ok (.dict (aset invdata2 "_meta"
                                                (.dict (aset m "hostvars" mhv2))))
                                      | none => .error "KeyError: 'hostvars'"
                                  | some w => .error ("TypeError: '" ++ type_name w ++
                                      "' object is not subscriptable")
                                  | none => .error "KeyError: '_meta'"
                              | w => .error (type_mismatch_msg w ["dict"] "all.vars")
                          | w => .error ("AttributeError: '" ++ type_name w ++
                              "' object has no attribute 'get'")
                  | w => .error (type_mismatch_msg w ["dict"] "hostvars")
              | w => .error ("AttributeError: '" ++ type_name w ++
                  "' object has no attribute 'get'")

namespace PyHeap

/-!
Heap-level model of `host_dict_merge` (`inventory.py` lines 172–188).

The pure model above captures the *returned* value; this model captures
Python's object semantics, which the frame claims are about: dictionaries are
heap objects addressed by natural numbers, `dict1.copy()` is a shallow copy
(a fresh object sharing the entry values, including references to nested
dictionaries), and `data[subkey].update(...)` writes through such a reference
in place.  Lists are immutable in the model because no list in the merge
engine is ever mutated (`merge_lists` builds a fresh list).  Fragments parsed
from YAML/JSON are trees without internal aliasing, which is the situation
the model's theorems address.
-/

/-- A heap value: scalar, null, sequence, or a reference to a dict object. -/
inductive HVal where
  | scalar (s : String)
  | null
  | list (xs : List HVal)
  | ref (a : Nat)
deriving Inhabited

mutual

/-- Structural equality test on heap values. -/
def heq' : HVal → HVal → Bool
  | .scalar a, .scalar b => a == b
  | .null, .null => true
  | .list xs, .list ys => heqList xs ys
  | .ref a, .ref b => a == b
  | _, _ => false

/-- Pointwise `heq'` on sequences. -/
def heqList : List HVal → List HVal → Bool
  | [], [] => true
  | x :: xs, y :: ys => heq' x y && heqList xs ys
  | _, _ => false

end

mutual

theorem heq'_iff : (a b : HVal) → (heq' a b = true ↔ a = b)
  | .scalar s, b => by cases b <;> simp [heq']
  | .null, b => by cases b <;> simp [heq']
  | .ref a, b => by cases b <;> simp [heq']
  | .list xs, b => by
      cases b <;> simp [heq']
      exact heqList_iff xs _

theorem heqList_iff : (xs ys : List HVal) → (heqList xs ys = true ↔ xs = ys)
  | [], ys => by cases ys <;> simp [heqList]
  | x :: xs, [] => by simp [heqList]
  | x :: xs, y :: ys => by
      simp [heqList, Bool.and_eq_true, heq'_iff x y, heqList_iff xs ys]

end

instance : DecidableEq HVal := fun a b => decidable_of_iff (heq' a b = true) (heq'_iff a b)

/-- A dict object: its insertion-ordered entries. -/
abbrev Obj := List (String × HVal)

/-- The heap: dict objects addressed by position. -/
abbrev Store := List Obj

/-- First-match lookup, as `alookup`. -/
def hlookup : Obj → String → Option HVal
  | [], _ => none
  | (k, v) :: rest, key => if k = key then some v else hlookup rest key

/-- In-place entry write, as `aset`. -/
def hset : Obj → String → HVal → Obj
  | [], key, v => [(key, v)]
  | (k, w) :: rest, key, v =>
      if k = key then (k, v) :: rest else (k, w) :: hset rest key v

/-- `base.update(src)` entry lists, as `aupdate`. -/
def hupdate (base : Obj) : Obj → Obj
  | [] => base
  | (k, v) :: rest => hupdate (hset base k v) rest

/-- Hashability: references (dicts) and lists are unhashable. -/
def hashableH : HVal → Bool
  | .scalar _ => true
  | .null => true
  | _ => false

/-- Python `set(v)` against the store (a reference iterates the keys of the
referenced dict object). -/
def pySetH (st : Store) : HVal → Except String (List HVal)
  | .list xs =>
      if xs.all hashableH then .ok xs.dedup
      else .error "TypeError: unhashable type"
  | .ref a =>
      match st.get? a with
      | some o => .ok ((o.map (fun kv => HVal.scalar kv.1)).dedup)
      | none => .error "model: dangling reference"
  | .scalar s => .ok ((s.data.map (fun c => HVal.scalar (String.mk [c]))).dedup)
  | .null => .error "TypeError: 'NoneType' object is not iterable"

/-- `merge_lists` against the store. -/
def merge_listsH (st : Store) (v1 v2 : HVal) : Except String (List HVal) :=
  match pySetH st v1 with
  | .error e => .error e
  | .ok s1 =>
      match pySetH st v2 with
      | .error e => .error e
      | .ok s2 => .ok ((s1 ++ s2).dedup)

/-- The loop of `host_dict_merge` over the entries of `dict2`, acting on the
store.  `dataAddr` is the address of the shallow copy `data`.  A mapping
value on the incoming side either updates the object already referenced by
`data[subkey]` *in place* (the shallow-copy aliasing the frame claims are
about), or allocates a fresh dict populated from the incoming object. -/
def host_dict_merge_loop (st : Store) (dataAddr : Nat) (sect : String) :
    List (String × HVal) → Except String Store
  | [] => .ok st
  | (subkey, v2) :: rest =>
      match st.get? dataAddr with
      | none => .error "model: dangling reference"
      | some dataObj =>
          match v2 with
          | .list l2 =>
              match merge_listsH st ((hlookup dataObj subkey).getD (.list [])) (.list l2) with
              | .error e => .error e
              | .ok u =>
                  host_dict_merge_loop (st.set dataAddr (hset dataObj subkey (.list u)))
                    dataAddr sect rest
          | .ref a2 =>
              match hlookup dataObj subkey with
              | some (.ref a1) =>
                  match st.get? a1, st.get? a2 with
                  | some o1, some o2 =>
                      host_dict_merge_loop (st.set a1 (hupdate o1 o2)) dataAddr sect rest
                  | _, _ => .error "model: dangling reference"
              | some _ =>
                  .error ("AttributeError: object has no attribute 'update'")
              | none =>
                  match st.get? a2 with
                  | some o2 =>
                      host_dict_merge_loop
                        ((st ++ [hupdate [] o2]).set dataAddr
                          (hset dataObj subkey (.ref st.length)))
                        dataAddr sect rest
                  | none => .error "model: dangling reference"
          | .scalar _ =>
              .error ("invalid type 'str' in section '" ++ sect ++ ":" ++ subkey ++
                "', must be: list, dict")
          | .null =>
              .error ("invalid type 'NoneType' in section '" ++ sect ++ ":" ++ subkey ++
                "', must be: list, dict")

/-- `host_dict_merge(dict1, dict2, section)` on the heap: shallow-copy the
object at `d1` into a fresh address, then run the loop over a snapshot of the
entries of the object at `d2`.  Returns the final store and the address of
the result. -/
def host_dict_merge (st : Store) (d1 d2 : Nat) (sect : String) :
    Except String (Store × Nat) :=
  match st.get? d1, st.get? d2 with
  | some o1, some o2 =>
      match host_dict_merge_loop (st ++ [o1]) st.length sect o2 with
      | .error e => .error e
      | .ok stF => .ok (stF, st.length)
  | _, _ => .error "model: dangling reference"

/-- The addresses stored directly in an object's entry values. -/
def refsOf (o : Obj) : List Nat :=
  o.filterMap (fun kv => match kv.2 with | .ref a => some a | _ => none)

end PyHeap

/-!  URI resolution (`inventory.py` lines 224–241 and
`aggravator/__init__.py` lines 204–231 — the two `Inventory.fetch` methods
branch identically) and the aggravator fragment loader `fetch_data`
(`aggravator/__init__.py` lines 123–152). -/

/-- `s.lower()` — character-wise lower-casing. -/
def toLowerS (s : String) : String := String.mk (s.data.map Char.toLower)

/-- `s.endswith(suffix)`. -/
def endsWithS (s suffix : String) : Bool := List.isSuffixOf suffix.data s.data

/-- `s.startswith(pre)`. -/
def startsWithS (s pre : String) : Bool := List.isPrefixOf pre.data s.data

/-- A character allowed in a URI scheme by `urllib.parse`. -/
def isSchemeChar (c : Char) : Bool :=
  c.isAlpha || c.isDigit || c = '+' || c = '-' || c = '.'

/-- Split off `scheme:` as `urllib.parse.urlparse` does: the part before the
first `':'`, provided it is non-empty, starts with a letter, and consists of
scheme characters only. -/
def schemeSplit (cs : List Char) : Option (List Char × List Char) :=
  let pre := cs.takeWhile (· ≠ ':')
  if pre.length = cs.length then none
  else
    match pre with
    | [] => none
    | c :: _ =>
        if c.isAlpha ∧ pre.all isSchemeChar then some (pre, cs.drop (pre.length + 1))
        else none

/-- `urlparse(uri).scheme` (lower-cased, `''` when absent). -/
def urlparse_scheme (uri : String) : String :=
  match schemeSplit uri.data with
  | some (s, _) => toLowerS (String.mk s)
  | none => ""

/-- `urlparse(uri).path`: drop the scheme, a `//netloc` component, and any
query or fragment suffix. -/
def urlparse_path (uri : String) : String :=
  let r := match schemeSplit uri.data with
    | some (_, rest) => rest
    | none => uri.data
  let r := match r with
    | '/' :: '/' :: tail => tail.dropWhile (fun c => c ≠ '/' ∧ c ≠ '?' ∧ c ≠ '#')
    | _ => r
  String.mk (r.takeWhile (fun c => c ≠ '?' ∧ c ≠ '#'))

/-- What `Inventory.fetch` decides to retrieve: either the reference joined
onto the root configuration's URI (`urljoin(self.uri, path)` — the RFC 3986
join itself is an external capability), or the reference as given. -/
inductive FetchTarget where
  | relative (base path : String)
  | asIs (uri : String)
deriving DecidableEq

namespace Inventory

/-- `Inventory.fetch(uri)` (`inventory.py` lines 224–241,
`aggravator/__init__.py` lines 204–231): no scheme resolves relative to the
root configuration URI; `file`/`http`/`https` with an absolute path is
fetched as-is, with a relative path it resolves relative to the root
configuration URI; any other scheme raises. -/
def fetch (self_uri uri : String) : Except String FetchTarget :=
  let sch := urlparse_scheme uri
  let path := urlparse_path uri
  if sch = "" then .ok (.relative self_uri path)
  else if sch = "file" ∨ sch = "http" ∨ sch = "https" then
    if startsWithS path "/" then .ok (.asIs uri)
    else .ok (.relative self_uri path)
  else .error ("Unsupported type '" ++ sch ++ "'")

end Inventory

namespace aggravator

/-- `os.path.splitext(p)[1]`: the suffix of the last path component from its
last `'.'` (dot included), empty when the component has no dot or only
leading dots. -/
def splitext_ext (p : String) : String :=
  let b := (p.data.reverse.takeWhile (· ≠ '/')).reverse
  let after := b.reverse.takeWhile (· ≠ '.')
  if after.length = b.length then ""
  else
    let stem := b.take (b.length - (after.length + 1))
    if stem.all (· = '.') then "" else String.mk ('.' :: after.reverse)

/-- `ansible.parsing.vault.is_encrypted` (external collaborator): the blob
header test for a vault-encrypted payload. -/
def is_vault_encrypted (data : String) : Bool :=
  startsWithS data "$ANSIBLE_VAULT;"

/-- The format chosen by `fetch_data` (`aggravator/__init__.py` lines
130–136): an explicit `data_type` wins; else a path ending in `.yaml`/`.yml`
means YAML; else `os.path.splitext(path)[1]`; the result is lower-cased. -/
def infer_data_type (data_type : Option String) (path : String) : String :=
  toLowerS (match data_type with
   | some t => t
   | none =>
       if endsWithS path ".yaml" || endsWithS path ".yml" then "yaml"
       else splitext_ext path)

/-- `fetch_data(uri, requestsobj, data_type, vault_password)`
(`aggravator/__init__.py` lines 123–152).  The transport read is the
already-performed `raw` result (local file or HTTP, both deliver text); the
JSON and YAML parsers and the vault `decrypt` are external capabilities
passed as functions.  The inferred format must be a key of the loader table
`{'json': …, 'yaml': …}`; the scheme must be `file`/empty or `http`/`https`;
an encrypted payload without a vault password degrades to the text `"{}"`
before parsing. -/
def fetch_data (uri : String) (data_type : Option String)
    (vault_password : Option String) (raw : Except String String)
    (loadJson loadYaml : String → Except String Value)
    (decrypt : String → String → String) : Except String Value :=
  let dt := infer_data_type data_type (urlparse_path uri)
  if dt ≠ "json" ∧ dt ≠ "yaml" then .error ("Unsupported data type: " ++ dt)
  else
    let sch := urlparse_scheme uri
    if sch = "file" ∨ sch = "" ∨ sch = "http" ∨ sch = "https" then
      match raw with
      | .error e => .error e
      | .ok rawdata =>
          let d :=
            if is_vault_encrypted rawdata then
              match vault_password with
              | none => "\x7b\x7d"
              | some pw => decrypt pw rawdata
            else rawdata
          (if dt = "json" then loadJson else loadYaml) d
    else .error ("unsupported URI '" ++ uri ++ "'")

end aggravator

/-! ## Basic lemmas about the mapping operations -/

theorem alookup_aset_self (l : List (String × Value)) (k : String) (v : Value) :
    alookup (aset l k v) k = some v := by
  induction l with
  | nil => simp [aset, alookup]
  | cons e rest ih =>
      obtain ⟨k', w⟩ := e
      by_cases h : k' = k
      · simp [aset, alookup, h]
      · simp [aset, alookup, h, ih]

theorem alookup_aset_ne (l : List (String × Value)) (k' k : String) (v : Value)
    (h : k' ≠ k) : alookup (aset l k' v) k = alookup l k := by
  induction l with
  | nil => simp [aset, alookup, h]
  | cons e rest ih =>
      obtain ⟨k0, w⟩ := e
      by_cases h0 : k0 = k'
      · subst h0
        simp [aset, alookup, h]
      · simp only [aset, if_neg h0, alookup]
        by_cases h1 : k0 = k
        · simp [h1]
        · simp [h1, ih]

/-! ## C3: scalar-vs-scalar merge conflicts raise -/

theorem hdm_loop_scalar_error (s : String) :
    ∀ (entries data : List (String × Value)) (k : String) (v2 : Value),
      alookup entries k = some v2 → isScalar v2 = true →
      ∃ msg, host_dict_merge_loop data s entries = .error msg
  | [], data, k, v2 => by simp [alookup]
  | (k', v') :: rest, data, k, v2 => by
      intro hl hs
      by_cases hk : k' = k
      · subst hk
        rw [alookup, if_pos rfl] at hl
        injection hl with hl
        subst hl
        cases v' with
        | null => exact ⟨_, rfl⟩
        | str a => exact ⟨_, rfl⟩
        | int n => exact ⟨_, rfl⟩
        | list xs => simp [isScalar] at hs
        | dict kvs => simp [isScalar] at hs
      · rw [alookup, if_neg hk] at hl
        cases v' with
        | list l2 =>
            simp only [host_dict_merge_loop]
            cases hm : merge_lists ((alookup data k').getD (.list [])) (.list l2) with
            | ok u => exact hdm_loop_scalar_error s rest _ k v2 hl hs
            | error e => exact ⟨e, rfl⟩
        | dict kvs2 =>
            simp only [host_dict_merge_loop]
            cases hc : (alookup data k').getD (.dict []) with
            | dict c => exact hdm_loop_scalar_error s rest _ k v2 hl hs
            | null => exact ⟨_, rfl⟩
            | str a => exact ⟨_, rfl⟩
            | int n => exact ⟨_, rfl⟩
            | list xs => exact ⟨_, rfl⟩
        | null => exact ⟨_, rfl⟩
        | str a => exact ⟨_, rfl⟩
        | int n => exact ⟨_, rfl⟩

/-- C3: when two mappings both hold a scalar value at the same key, merging
them with `host_dict_merge` fails with the `raise_for_type` type-mismatch
error (or an error raised even earlier on another entry); it never returns a
merged mapping that silently keeps either scalar. -/
theorem c3_scalar_conflict_raises (d1 d2 : List (String × Value)) (k : String)
    (v1 v2 : Value) (s : String)
    (_h1 : alookup d1 k = some v1) (_hs1 : isScalar v1 = true)
    (h2 : alookup d2 k = some v2) (hs2 : isScalar v2 = true) :
    ∃ msg, host_dict_merge d1 d2 s = .error msg :=
  hdm_loop_scalar_error s d2 d1 k v2 h2 hs2

/-- Witness for C3 at a concrete conflict: `{'a': 'x'}` merged with
`{'a': 'y'}`. -/
theorem c3_scalar_conflict_raises_witness :
    ∃ msg, host_dict_merge [("a", .str "x")] [("a", .str "y")] "prod" = .error msg :=
  c3_scalar_conflict_raises [("a", .str "x")] [("a", .str "y")] "a"
    (.str "x") (.str "y") "prod" (by rfl) (by rfl) (by rfl) (by rfl)

/-! ## C10: `_meta` in a bare hosts fragment is skipped -/

theorem hgi_loop_meta (s : String) :
    ∀ (entries data r : List (String × Value)),
      host_group_iterate_loop data s entries = .ok r →
      alookup r "_meta" = alookup data "_meta"
  | [], data, r => by
      intro hr
      simp only [host_group_iterate_loop] at hr
      injection hr with hr
      subst hr; rfl
  | (key, v) :: rest, data, r => by
      intro hr
      simp only [host_group_iterate_loop] at hr
      by_cases hk : key = "_meta"
      · rw [if_pos hk] at hr
        exact hgi_loop_meta s rest data r hr
      · rw [if_neg hk] at hr
        have hne : key ≠ "_meta" := hk
        repeat' split at hr
        all_goals first
          | exact (Except.noConfusion hr)
          | exact (hgi_loop_meta s rest _ r hr).trans (alookup_aset_ne _ _ _ _ hne)

/-- C10: merging a bare (unkeyed) hosts fragment with `host_group_iterate`
never creates or modifies the accumulating tree's `_meta` entry — a top-level
`_meta` key of the incoming fragment is skipped. -/
theorem c10_meta_skipped (obj1 obj2 : List (String × Value)) (s : String)
    (r : List (String × Value)) (h : host_group_iterate obj1 obj2 s = .ok r) :
    alookup r "_meta" = alookup obj1 "_meta" :=
  hgi_loop_meta s obj2 obj1 r h

/-- Witness for C10: a fragment that defines `_meta` and a fresh group merges
into an empty accumulator without creating a `_meta` entry. -/
theorem c10_meta_skipped_witness :
    alookup [("web", Value.list [.str "h1"])] "_meta" =
      alookup ([] : List (String × Value)) "_meta" :=
  c10_meta_skipped []
    [("_meta", .dict [("hostvars", .dict [("h1", .dict [("a", .int 1)])])]),
     ("web", .list [.str "h1"])]
    "include_hosts" [("web", .list [.str "h1"])] (by rfl)

/-! ## C9: URI resolution in `Inventory.fetch` -/

/-- C9: a scheme-less reference always resolves relative to the root
configuration's URI; a `file`/`http`/`https` reference with a relative path
also resolves relative to the root configuration's URI; one with an absolute
path (starting `/`) is fetched as-is; any other scheme raises. -/
theorem c9_fetch_resolution (self_uri uri : String) :
    (urlparse_scheme uri = "" →
      Inventory.fetch self_uri uri = .ok (.relative self_uri (urlparse_path uri))) ∧
    ((urlparse_scheme uri = "file" ∨ urlparse_scheme uri = "http" ∨
        urlparse_scheme uri = "https") →
      startsWithS (urlparse_path uri) "/" = false →
      Inventory.fetch self_uri uri = .ok (.relative self_uri (urlparse_path uri))) ∧
    ((urlparse_scheme uri = "file" ∨ urlparse_scheme uri = "http" ∨
        urlparse_scheme uri = "https") →
      startsWithS (urlparse_path uri) "/" = true →
      Inventory.fetch self_uri uri = .ok (.asIs uri)) ∧
    (urlparse_scheme uri ≠ "" → urlparse_scheme uri ≠ "file" →
      urlparse_scheme uri ≠ "http" → urlparse_scheme uri ≠ "https" →
      Inventory.fetch self_uri uri = .error ("Unsupported type '" ++ urlparse_scheme uri ++ "'")) := by
  refine ⟨?_, ?_, ?_, ?_⟩
  · intro h
    simp [Inventory.fetch, h]
  · intro h hp
    rcases h with h | h | h <;> simp [Inventory.fetch, h, hp]
  · intro h hp
    rcases h with h | h | h <;> simp [Inventory.fetch, h, hp]
  · intro h1 h2 h3 h4
    simp [Inventory.fetch, h1, h2, h3, h4]

/-- Witness for C9: each branch at a concrete reference, against the root
configuration URI `file:///etc/aggravator/config.yml`. -/
theorem c9_fetch_resolution_witness :
    Inventory.fetch "file:///etc/aggravator/config.yml" "sub/hosts.yml" =
      .ok (.relative "file:///etc/aggravator/config.yml" "sub/hosts.yml") ∧
    Inventory.fetch "file:///etc/aggravator/config.yml" "file:sub/hosts.yml" =
      .ok (.relative "file:///etc/aggravator/config.yml" "sub/hosts.yml") ∧
    Inventory.fetch "file:///etc/aggravator/config.yml" "http://example.org/hosts.yml" =
      .ok (.asIs "http://example.org/hosts.yml") ∧
    Inventory.fetch "file:///etc/aggravator/config.yml" "ftp://example.org/hosts.yml" =
      .error "Unsupported type 'ftp'" := by
  refine ⟨?_, ?_, ?_, ?_⟩
  · exact (c9_fetch_resolution "file:///etc/aggravator/config.yml" "sub/hosts.yml").1 (by rfl)
  · exact (c9_fetch_resolution "file:///etc/aggravator/config.yml" "file:sub/hosts.yml").2.1
      (Or.inl (by rfl)) (by rfl)
  · exact (c9_fetch_resolution "file:///etc/aggravator/config.yml" "http://example.org/hosts.yml").2.2.1
      (Or.inr (Or.inl (by rfl))) (by rfl)
  · exact (c9_fetch_resolution "file:///etc/aggravator/config.yml" "ftp://example.org/hosts.yml").2.2.2
      (by decide) (by decide) (by decide) (by decide)

/-! ## C8: format inference in the loader -/

/-- C8 (code bug): with no explicit format, a URI whose path ends in `.json`
does *not* select the JSON parser — `os.path.splitext` keeps the leading dot,
`'.json'` is not a key of the loader table, and `fetch_data` raises
`Unsupported data type: .json` before even reading the data.  This
contradicts the claim (and the module docstring "Files can be in either YAML
or JSON format"); the sibling `.yaml`/`.yml` inference works, as does an
unrecognized suffix raising, and an explicit `json` override still selects
JSON. -/
theorem c8_json_inference_broken :
    aggravator.fetch_data "file:///etc/aggravator/data.json" none none (.ok "[]")
      (fun _ => .ok (.list [])) (fun _ => .ok .null) (fun _ s => s) =
      .error "Unsupported data type: .json" ∧
    aggravator.infer_data_type none "/etc/aggravator/data.json" = ".json" ∧
    aggravator.infer_data_type none "/etc/aggravator/data.yaml" = "yaml" ∧
    aggravator.infer_data_type none "/etc/aggravator/data.yml" = "yaml" ∧
    aggravator.infer_data_type none "/etc/aggravator/data.ini" = ".ini" ∧
    aggravator.fetch_data "file:///etc/aggravator/data.ini" none none (.ok "x")
      (fun _ => .ok .null) (fun _ => .ok .null) (fun _ s => s) =
      .error "Unsupported data type: .ini" ∧
    aggravator.fetch_data "file:///etc/aggravator/data.json" (some "json") none (.ok "[]")
      (fun _ => .ok (.list [])) (fun _ => .ok .null) (fun _ s => s) =
      .ok (.list []) := by
  refine ⟨by rfl, by rfl, by rfl, by rfl, by rfl, by rfl, by rfl⟩

/-! ## C7: withheld vault password degrades an encrypted fragment to `{}` -/

/-- C7: when the raw bytes of a fragment are a vault-encrypted blob and no
vault password was supplied, `fetch_data` replaces the payload with the text
`"{}"` and parses that — the fragment degrades to the parser's empty mapping
and the fetch succeeds. -/
theorem c7_vault_degrades_to_empty (uri : String) (data_type : Option String)
    (rawdata : String) (loadJson loadYaml : String → Except String Value)
    (decrypt : String → String → String)
    (hfmt : aggravator.infer_data_type data_type (urlparse_path uri) = "json" ∨
      aggravator.infer_data_type data_type (urlparse_path uri) = "yaml")
    (hsch : urlparse_scheme uri = "file" ∨ urlparse_scheme uri = "" ∨
      urlparse_scheme uri = "http" ∨ urlparse_scheme uri = "https")
    (henc : aggravator.is_vault_encrypted rawdata = true)
    (hj : loadJson "\x7b\x7d" = .ok (.dict []))
    (hy : loadYaml "\x7b\x7d" = .ok (.dict [])) :
    aggravator.fetch_data uri data_type none (.ok rawdata) loadJson loadYaml decrypt =
      .ok (.dict []) := by
  unfold aggravator.fetch_data
  rcases hfmt with hfmt | hfmt <;>
    rcases hsch with hsch | hsch | hsch | hsch <;>
      simp [hfmt, hsch, henc, hj, hy]

/-- Witness for C7: a concrete vault blob fetched as YAML with no password. -/
theorem c7_vault_degrades_to_empty_witness :
    aggravator.fetch_data "file:///etc/aggravator/secrets.yml" none none
      (.ok "$ANSIBLE_VAULT;1.1;AES256\n61626364")
      (fun s => if s = "\x7b\x7d" then .ok (.dict []) else .error "json parse")
      (fun s => if s = "\x7b\x7d" then .ok (.dict []) else .error "yaml parse")
      (fun _ s => s) = .ok (.dict []) :=
  c7_vault_degrades_to_empty "file:///etc/aggravator/secrets.yml" none
    "$ANSIBLE_VAULT;1.1;AES256\n61626364" _ _ _
    (Or.inr (by rfl)) (Or.inl (by rfl)) (by rfl) (by rfl) (by rfl)

/-! ## C1: sequence-valued keys merge as duplicate-free union -/

theorem hdm_loop_other_keys (s : String) :
    ∀ (entries data : List (String × Value)) (k : String) (r : List (String × Value)),
      (∀ e ∈ entries, e.1 ≠ k) → host_dict_merge_loop data s entries = .ok r →
      alookup r k = alookup data k
  | [], data, k, r => by
      intro _ hr
      simp only [host_dict_merge_loop] at hr
      injection hr with hr
      subst hr; rfl
  | (k', v') :: rest, data, k, r => by
      intro hne hr
      simp only [host_dict_merge_loop] at hr
      have hk : k' ≠ k := hne (k', v') (by simp)
      have hrest : ∀ e ∈ rest, e.1 ≠ k := fun e he => hne e (by simp [he])
      repeat' split at hr
      all_goals first
        | exact Except.noConfusion hr
        | exact (hdm_loop_other_keys s rest _ k r hrest hr).trans (alookup_aset_ne _ _ _ _ hk)

theorem merge_lists_ok_spec (l1 l2 : List Value) (u : List Value)
    (hm : merge_lists (.list l1) (.list l2) = .ok u) :
    u.Nodup ∧ (∀ x, x ∈ u ↔ x ∈ l1 ∨ x ∈ l2) := by
  unfold merge_lists pySet at hm
  by_cases h1 : l1.all hashable
  · by_cases h2 : l2.all hashable
    · simp only [h1, h2, if_pos] at hm
      injection hm with hm
      subst hm
      refine ⟨List.nodup_dedup _, fun x => ?_⟩
      simp [List.mem_dedup, List.mem_append]
    · simp [h1, h2] at hm
  · simp [h1] at hm

theorem hdm_loop_list_union (s : String) :
    ∀ (entries data : List (String × Value)) (k : String) (l1 l2 : List Value)
      (r : List (String × Value)),
      alookup entries k = some (.list l2) → (entries.map Prod.fst).Nodup →
      alookup data k = some (.list l1) →
      host_dict_merge_loop data s entries = .ok r →
      ∃ u, alookup r k = some (.list u) ∧ u.Nodup ∧ (∀ x, x ∈ u ↔ x ∈ l1 ∨ x ∈ l2)
  | [], data, k, l1, l2, r => by simp [alookup]
  | (k', v') :: rest, data, k, l1, l2, r => by
      intro hl hnd hd hr
      rw [List.map_cons, List.nodup_cons] at hnd
      obtain ⟨hnotin, hnd'⟩ := hnd
      by_cases hk : k' = k
      · subst hk
        rw [alookup, if_pos rfl] at hl
        injection hl with hl
        subst hl
        simp only [host_dict_merge_loop] at hr
        rw [hd] at hr
        simp only [Option.getD_some] at hr
        cases hm : merge_lists (.list l1) (.list l2) with
        | error e => rw [hm] at hr; exact Except.noConfusion hr
        | ok u =>
            rw [hm] at hr
            have hothers : ∀ e ∈ rest, e.1 ≠ k' := by
              intro e he
              intro hcontra
              exact hnotin (by simpa [hcontra] using List.mem_map_of_mem Prod.fst he)
            have hfinal := hdm_loop_other_keys s rest _ k' r hothers hr
            rw [alookup_aset_self] at hfinal
            obtain ⟨hnodup, hmem⟩ := merge_lists_ok_spec l1 l2 u hm
            exact ⟨u, hfinal, hnodup, hmem⟩
      · rw [alookup, if_neg hk] at hl
        simp only [host_dict_merge_loop] at hr
        repeat' split at hr
        all_goals first
          | exact Except.noConfusion hr
          | exact hdm_loop_list_union s rest _ k l1 l2 r hl hnd'
              (by rw [alookup_aset_ne _ _ _ _ hk]; exact hd) hr

/-- C1: (a) merging the sequence-valued group `{grp: l1}` with `{grp: l2}`
under the hosts-merge operation `host_group_iterate` yields
`{grp: {hosts: u}}` where `u` is the duplicate-free union of `l1` and `l2` —
never a concatenation; (b) in general, whenever a key holds sequence values
on both sides of `host_dict_merge` (with the incoming mapping well-formed,
i.e. duplicate-free keys as Python dicts are), the merged value at that key
is the duplicate-free union of the two sequences. -/
theorem c1_sequences_merge_as_union :
    (∀ (grp : String) (l1 l2 : List Value) (s : String),
      grp ≠ "_meta" → l1.all hashable = true → l2.all hashable = true →
      ∃ u, host_group_iterate [(grp, .list l1)] [(grp, .list l2)] s =
          .ok [(grp, .dict [("hosts", .list u)])] ∧
        u.Nodup ∧ (∀ x, x ∈ u ↔ x ∈ l1 ∨ x ∈ l2)) ∧
    (∀ (d1 d2 : List (String × Value)) (k : String) (l1 l2 : List Value)
      (s : String) (r : List (String × Value)),
      alookup d1 k = some (.list l1) → alookup d2 k = some (.list l2) →
      (d2.map Prod.fst).Nodup → host_dict_merge d1 d2 s = .ok r →
      ∃ u, alookup r k = some (.list u) ∧ u.Nodup ∧ (∀ x, x ∈ u ↔ x ∈ l1 ∨ x ∈ l2)) := by
  constructor
  · intro grp l1 l2 s hgrp h1 h2
    refine ⟨(l1.dedup ++ l2.dedup).dedup, ?_, List.nodup_dedup _, ?_⟩
    · unfold host_group_iterate host_group_iterate_loop
      rw [if_neg hgrp]
      simp only [alookup, if_pos rfl, convert_host_list_to_dict]
      rw [show raise_for_type (Value.list l2) ["list", "dict"] (s ++ ":" ++ grp) =
        Except.ok () from rfl]
      unfold host_dict_merge host_dict_merge_loop merge_lists pySet
      simp only [alookup, if_pos rfl, Option.getD_some, h1, h2, if_pos]
      unfold host_dict_merge_loop
      simp [aset, host_group_iterate_loop]
    · intro x
      simp [List.mem_dedup, List.mem_append]
  · intro d1 d2 k l1 l2 s r h1 h2 hnd hr
    exact hdm_loop_list_union s d2 d1 k l1 l2 r h2 hnd h1 hr

/-- Witness for C1: `{grp: [h1, h2]}` merged with `{grp: [h2, h3]}` gives
`{grp: {hosts: u}}` with `u` a duplicate-free union, both through
`host_group_iterate` and through `host_dict_merge` directly. -/
theorem c1_sequences_merge_as_union_witness :
    (∃ u, host_group_iterate [("grp", .list [.str "h1", .str "h2"])]
        [("grp", .list [.str "h2", .str "h3"])] "include_hosts" =
        .ok [("grp", .dict [("hosts", .list u)])] ∧
      u.Nodup ∧ (∀ x, x ∈ u ↔ x ∈ [Value.str "h1", .str "h2"] ∨ x ∈ [Value.str "h2", .str "h3"])) ∧
    (∃ u, alookup [("hosts", Value.list [.str "h1", .str "h2", .str "h3"])] "hosts" =
        some (.list u) ∧ u.Nodup ∧
      (∀ x, x ∈ u ↔ x ∈ [Value.str "h1", .str "h2"] ∨ x ∈ [Value.str "h2", .str "h3"])) := by
  constructor
  · exact c1_sequences_merge_as_union.1 "grp" [.str "h1", .str "h2"] [.str "h2", .str "h3"]
      "include_hosts" (by decide) (by rfl) (by rfl)
  · exact c1_sequences_merge_as_union.2 [("hosts", .list [.str "h1", .str "h2"])]
      [("hosts", .list [.str "h2", .str "h3"])] "hosts" [.str "h1", .str "h2"]
      [.str "h2", .str "h3"] "include_hosts"
      [("hosts", Value.list [.str "h1", .str "h2", .str "h3"])]
      (by rfl) (by rfl) (by simp) (by rfl)

/-! ## C6: an undefined environment yields the empty-but-valid document -/

theorem includes_of_unknown_env (c : List (String × Value)) (env sect : String)
    (h : alookup c "environments" = none ∨
      ∃ e, alookup c "environments" = some (.dict e) ∧ alookup e env = none) :
    includes_of (.dict c) env sect = .ok [] := by
  rcases h with h | ⟨e, he, henv⟩
  · simp [includes_of, pyGet, h, alookup, iterList]
  · simp [includes_of, pyGet, he, henv, alookup, iterList]

/-- C6: requesting an environment that is not defined under `environments`
does not raise: `generate_inventory` returns the empty-but-structurally-valid
document (all three fragment categories default to empty include lists). -/
theorem c6_unknown_env_empty_doc (c : List (String × Value)) (env : String)
    (fetchFn : String → Except String Value)
    (h : alookup c "environments" = none ∨
      ∃ e, alookup c "environments" = some (.dict e) ∧ alookup e env = none) :
    generate_inventory (.dict c) env fetchFn =
      .ok (.dict [("_meta", .dict [("hostvars", .dict [])]),
        ("all", .dict [("vars", .dict [("platform_name", .str env)])])]) := by
  have hinc := includes_of_unknown_env c env
  unfold generate_inventory fetch_merge_vars fetch_merge_hosts
  rw [hinc "include_group_vars" h, hinc "include_host_vars" h, hinc "include_hosts" h]
  simp [fetch_merge_vars_loop, fetch_merge_hosts_loop, alookup, aset,
    groupvars_loop, hostvars_loop]

/-- Witness for C6: a configuration defining only `prod`, queried for `qa`. -/
theorem c6_unknown_env_empty_doc_witness :
    generate_inventory
      (.dict [("environments", .dict [("prod", .dict [("include_hosts", .list [.str "h.yml"])])])])
      "qa" (fun _ => .error "404") =
      .ok (.dict [("_meta", .dict [("hostvars", .dict [])]),
        ("all", .dict [("vars", .dict [("platform_name", .str "qa")])])]) :=
  c6_unknown_env_empty_doc
    [("environments", .dict [("prod", .dict [("include_hosts", .list [.str "h.yml"])])])]
    "qa" (fun _ => .error "404")
    (Or.inr ⟨[("prod", .dict [("include_hosts", .list [.str "h.yml"])])], by rfl, by rfl⟩)

/-! ## Inversion of a successful `generate_inventory` run -/

/-- Destructure a successful `generate_inventory` run into its intermediate
results, following the Python statement order. -/
theorem generate_inventory_ok_inv (config : Value) (env : String)
    (fetchFn : String → Except String Value) (d : Value)
    (h : generate_inventory config env fetchFn = .ok d) :
    ∃ (g hv inv0 meta0 hv0 inv1 alld varsd m : List (String × Value)) (mhv mhv2 : Value),
      fetch_merge_vars config env fetchFn "include_group_vars" = .ok g ∧
      fetch_merge_vars config env fetchFn "include_host_vars" = .ok hv ∧
      fetch_merge_hosts config env fetchFn "include_hosts" = .ok inv0 ∧
      (alookup inv0 "_meta").getD (.dict []) = .dict meta0 ∧
      (alookup meta0 "hostvars").getD (.dict []) = .dict hv0 ∧
      groupvars_loop (aset inv0 "_meta" (.dict (aset meta0 "hostvars" (.dict hv0)))) g = .ok inv1 ∧
      (alookup inv1 "all").getD (.dict []) = .dict alld ∧
      (alookup alld "vars").getD (.dict []) = .dict varsd ∧
      alookup (aset inv1 "all" (.dict (aset alld "vars" (.dict (aset varsd "platform_name"
          ((alookup varsd "platform_name").getD (.str env))))))) "_meta" = some (.dict m) ∧
      alookup m "hostvars" = some mhv ∧
      hostvars_loop mhv hv = .ok mhv2 ∧
      d = .dict (aset (aset inv1 "all" (.dict (aset alld "vars" (.dict (aset varsd "platform_name"
          ((alookup varsd "platform_name").getD (.str env)))))))
        "_meta" (.dict (aset m "hostvars" mhv2))) := by
  unfold generate_inventory at h
  cases hg : fetch_merge_vars config env fetchFn "include_group_vars" with
  | error e => rw [hg] at h; exact absurd h (by simp)
  | ok g =>
  rw [hg] at h
  try simp only [] at h
  cases hh : fetch_merge_vars config env fetchFn "include_host_vars" with
  | error e => rw [hh] at h; exact absurd h (by simp)
  | ok hv =>
  rw [hh] at h
  try simp only [] at h
  cases hi : fetch_merge_hosts config env fetchFn "include_hosts" with
  | error e => rw [hi] at h; exact absurd h (by simp)
  | ok inv0 =>
  rw [hi] at h
  try simp only [] at h
  cases hm0 : (alookup inv0 "_meta").getD (.dict []) with
  | null => rw [hm0] at h; exact absurd h (by simp)
  | str a => rw [hm0] at h; exact absurd h (by simp)
  | int n => rw [hm0] at h; exact absurd h (by simp)
  | list xs => rw [hm0] at h; exact absurd h (by simp)
  | dict meta0 =>
  rw [hm0] at h
  try simp only [] at h
  cases hv0e : (alookup meta0 "hostvars").getD (.dict []) with
  | null => rw [hv0e] at h; exact absurd h (by simp)
  | str a => rw [hv0e] at h; exact absurd h (by simp)
  | int n => rw [hv0e] at h; exact absurd h (by simp)
  | list xs => rw [hv0e] at h; exact absurd h (by simp)
  | dict hv0 =>
  rw [hv0e] at h
  try simp only [] at h
  cases hgl : groupvars_loop (aset inv0 "_meta" (.dict (aset meta0 "hostvars" (.dict hv0)))) g with
  | error e => rw [hgl] at h; exact absurd h (by simp)
  | ok inv1 =>
  rw [hgl] at h
  try simp only [] at h
  cases hall : (alookup inv1 "all").getD (.dict []) with
  | null => rw [hall] at h; exact absurd h (by simp)
  | str a => rw [hall] at h; exact absurd h (by simp)
  | int n => rw [hall] at h; exact absurd h (by simp)
  | list xs => rw [hall] at h; exact absurd h (by simp)
  | dict alld =>
  rw [hall] at h
  try simp only [] at h
  cases hvar : (alookup alld "vars").getD (.dict []) with
  | null => rw [hvar] at h; exact absurd h (by simp)
  | str a => rw [hvar] at h; exact absurd h (by simp)
  | int n => rw [hvar] at h; exact absurd h (by simp)
  | list xs => rw [hvar] at h; exact absurd h (by simp)
  | dict varsd =>
  rw [hvar] at h
  try simp only [] at h
  cases hmeta : alookup (aset inv1 "all" (.dict (aset alld "vars" (.dict (aset varsd
      "platform_name" ((alookup varsd "platform_name").getD (.str env))))))) "_meta" with
  | none => rw [hmeta] at h; exact absurd h (by simp)
  | some mv =>
  rw [hmeta] at h
  try simp only [] at h
  cases mv with
  | null => exact absurd h (by simp)
  | str a => exact absurd h (by simp)
  | int n => exact absurd h (by simp)
  | list xs => exact absurd h (by simp)
  | dict m =>
  try simp only [] at h
  cases hmh : alookup m "hostvars" with
  | none => rw [hmh] at h; exact absurd h (by simp)
  | some mhv =>
  rw [hmh] at h
  try simp only [] at h
  cases hhl : hostvars_loop mhv hv with
  | error e => rw [hhl] at h; exact absurd h (by simp)
  | ok mhv2 =>
  rw [hhl] at h
  try simp only [] at h
  injection h with h
  exact ⟨g, hv, inv0, meta0, hv0, inv1, alld, varsd, m, mhv, mhv2,
    rfl, rfl, rfl, hm0, hv0e, hgl, hall, hvar, hmeta, hmh, hhl, h.symm⟩

/-! ## C5: are all group values mappings in the final document? -/

theorem alookup_some_mem_keys (l : List (String × Value)) (k : String) (v : Value)
    (h : alookup l k = some v) : k ∈ l.map Prod.fst := by
  induction l with
  | nil => simp [alookup] at h
  | cons e rest ih =>
      obtain ⟨k0, w⟩ := e
      by_cases h0 : k0 = k
      · simp [h0]
      · rw [alookup, if_neg h0] at h
        simp [ih h]

theorem gl_result_dict :
    ∀ (g invdata out : List (String × Value)),
      groupvars_loop invdata g = .ok out →
      ∀ k, k ∈ g.map Prod.fst ∨ (∃ kvs, alookup invdata k = some (.dict kvs)) →
      ∃ kvs, alookup out k = some (.dict kvs)
  | [], invdata, out => by
      intro h k hk
      simp only [groupvars_loop] at h
      injection h with h
      subst h
      rcases hk with hk | hk
      · simp at hk
      · exact hk
  | (key, gv) :: rest, invdata, out => by
      intro h k hk
      simp only [groupvars_loop] at h
      repeat' split at h
      all_goals first
        | exact Except.noConfusion h
        | · refine gl_result_dict rest _ out h k ?_
            by_cases hkey : k = key
            · subst hkey
              exact Or.inr ⟨_, alookup_aset_self _ _ _⟩
            · rcases hk with hk | ⟨kvs, hkv⟩
              · simp only [List.map_cons, List.mem_cons] at hk
                rcases hk with hk | hk
                · exact absurd hk hkey
                · exact Or.inl hk
              · refine Or.inr ⟨kvs, ?_⟩
                rw [alookup_aset_ne _ _ _ _ (fun hh => hkey hh.symm)]
                exact hkv

/-- The root configuration of the C5 counterexample: one environment `prod`
with a single bare hosts include and no group-vars includes. -/
def c5cfg : Value :=
  .dict [("environments", .dict [("prod", .dict
    [("include_hosts", .list [.str "hosts.yml"])])])]

/-- The fetch capability of the C5 counterexample: `hosts.yml` is the
fragment `{web: [h1]}`. -/
def c5fetchFn : String → Except String Value := fun u =>
  if u = "hosts.yml" then .ok (.dict [("web", .list [.str "h1"])]) else .error "404"

/-- The inventory document the code actually produces for `c5cfg`. -/
def c5doc : Value :=
  .dict [("web", .list [.str "h1"]),
    ("_meta", .dict [("hostvars", .dict [])]),
    ("all", .dict [("vars", .dict [("platform_name", .str "prod")])])]

/-- C5 counterexample: a group that appears only in a hosts fragment is *not*
normalized — the final inventory maps `web` to the bare sequence `[h1]`, not
to a mapping.  The conversion to `{hosts: …}` only happens for keys that
group-vars fragments also define. -/
theorem c5_bare_hosts_group_stays_list_counterexample :
    generate_inventory c5cfg "prod" c5fetchFn = .ok c5doc ∧
    vpath c5doc ["web"] = some (.list [.str "h1"]) ∧
    ∀ kvs, vpath c5doc ["web"] ≠ some (.dict kvs) := by
  refine ⟨by rfl, by rfl, ?_⟩
  intro kvs h
  rw [show vpath c5doc ["web"] = some (.list [.str "h1"]) from rfl] at h
  simp at h

/-- C5 amended: every top-level key that the merged group-vars define is a
mapping in the final inventory document (bare host-list groups are converted
to `{hosts: …}` when their group-vars are overlaid); groups coming only from
host fragments may remain bare sequences. -/
theorem c5_amended_groupvar_groups_are_mappings (config : Value) (env : String)
    (fetchFn : String → Except String Value) (d : Value)
    (g : List (String × Value)) (k : String) (gv : Value)
    (hok : generate_inventory config env fetchFn = .ok d)
    (hg : fetch_merge_vars config env fetchFn "include_group_vars" = .ok g)
    (hk : alookup g k = some gv) :
    ∃ kvs, vpath d [k] = some (.dict kvs) := by
  obtain ⟨g', hv, inv0, meta0, hv0, inv1, alld, varsd, m, mhv, mhv2,
    hg', hh, hi, hm0, hv0e, hgl, hall, hvar, hmeta, hmh, hhl, hd⟩ :=
    generate_inventory_ok_inv config env fetchFn d hok
  rw [hg] at hg'
  injection hg' with hg'
  subst hg'
  obtain ⟨kvs1, h1⟩ :=
    gl_result_dict g _ inv1 hgl k (Or.inl (alookup_some_mem_keys _ _ _ hk))
  subst hd
  simp only [vpath]
  by_cases hkm : k = "_meta"
  · subst hkm
    rw [alookup_aset_self]
    exact ⟨_, rfl⟩
  · rw [alookup_aset_ne _ _ _ _ (fun hh => hkm hh.symm)]
    by_cases hka : k = "all"
    · subst hka
      rw [alookup_aset_self]
      exact ⟨_, rfl⟩
    · rw [alookup_aset_ne _ _ _ _ (fun hh => hka hh.symm)]
      rw [h1]
      exact ⟨kvs1, rfl⟩

/-- Witness for C5 amended: with a group-vars fragment for `web`, the final
document maps `web` to `{hosts: [h1], vars: {role: frontend}}` — a mapping. -/
theorem c5_amended_groupvar_groups_are_mappings_witness :
    ∃ kvs, vpath
      (.dict [("web", .dict [("hosts", .list [.str "h1"]),
          ("vars", .dict [("role", .str "frontend")])]),
        ("_meta", .dict [("hostvars", .dict [])]),
        ("all", .dict [("vars", .dict [("platform_name", .str "prod")])])])
      ["web"] = some (.dict kvs) :=
  c5_amended_groupvar_groups_are_mappings
    (.dict [("environments", .dict [("prod", .dict
      [("include_hosts", .list [.str "hosts.yml"]),
       ("include_group_vars", .list [.str "groups.yml"])])])])
    "prod"
    (fun u => if u = "hosts.yml" then .ok (.dict [("web", .list [.str "h1"])])
      else if u = "groups.yml" then .ok (.dict [("web", .dict [("role", .str "frontend")])])
      else .error "404")
    (.dict [("web", .dict [("hosts", .list [.str "h1"]),
        ("vars", .dict [("role", .str "frontend")])]),
      ("_meta", .dict [("hostvars", .dict [])]),
      ("all", .dict [("vars", .dict [("platform_name", .str "prod")])])])
    [("web", .dict [("role", .str "frontend")])]
    "web" (.dict [("role", .str "frontend")])
    (by rfl) (by rfl) (by rfl)

/-! ## C2: `_meta.hostvars` is a mapping; `platform_name` defaults to the
environment name.

The "no fragment defined `platform_name`" hypothesis is formalized as: the
string `platform_name` occurs nowhere (neither as a mapping key nor as a
string scalar) in the configuration or in any fetched fragment.  The lemmas
below show this is preserved by every merge step, so the
`invdata['all']['vars'].get('platform_name', …)` lookup misses and the
default — the environment name — is taken. -/

theorem mentionsStrKVs_cons_false (t k : String) (v : Value) (rest : List (String × Value)) :
    mentionsStrKVs t ((k, v) :: rest) = false ↔
      (k == t) = false ∧ mentionsStr t v = false ∧ mentionsStrKVs t rest = false := by
  simp [mentionsStrKVs, Bool.or_eq_false_iff, and_assoc]

theorem mentionsStrList_false_iff (t : String) (xs : List Value) :
    mentionsStrList t xs = false ↔ ∀ x ∈ xs, mentionsStr t x = false := by
  induction xs with
  | nil => simp [mentionsStrList]
  | cons x rest ih => simp [mentionsStrList, Bool.or_eq_false_iff, ih]

theorem noM_lookup (t : String) (L : List (String × Value)) (k : String) (v : Value)
    (hL : mentionsStrKVs t L = false) (h : alookup L k = some v) :
    mentionsStr t v = false ∧ (k == t) = false := by
  induction L with
  | nil => simp [alookup] at h
  | cons e rest ih =>
      obtain ⟨k0, w⟩ := e
      rw [mentionsStrKVs_cons_false] at hL
      obtain ⟨hk0, hw, hrest⟩ := hL
      by_cases h0 : k0 = k
      · subst h0
        rw [alookup, if_pos rfl] at h
        injection h with h
        subst h
        exact ⟨hw, hk0⟩
      · rw [alookup, if_neg h0] at h
        exact ih hrest h

theorem noM_lookup_none (t : String) (L : List (String × Value))
    (hL : mentionsStrKVs t L = false) : alookup L t = none := by
  cases h : alookup L t with
  | none => rfl
  | some v =>
      have := (noM_lookup t L t v hL h).2
      simp at this

theorem noM_aset (t : String) (L : List (String × Value)) (k : String) (v : Value)
    (hL : mentionsStrKVs t L = false) (hk : (k == t) = false)
    (hv : mentionsStr t v = false) : mentionsStrKVs t (aset L k v) = false := by
  induction L with
  | nil => simp [aset, mentionsStrKVs_cons_false, hk, hv, mentionsStrKVs]
  | cons e rest ih =>
      obtain ⟨k0, w⟩ := e
      rw [mentionsStrKVs_cons_false] at hL
      obtain ⟨hk0, hw, hrest⟩ := hL
      by_cases h0 : k0 = k
      · simp [aset, h0, mentionsStrKVs_cons_false, hk, hv, hrest]
      · rw [aset, if_neg h0, mentionsStrKVs_cons_false]
        exact ⟨hk0, hw, ih hrest⟩

theorem noM_aupdate (t : String) :
    ∀ (src L : List (String × Value)),
      mentionsStrKVs t L = false → mentionsStrKVs t src = false →
      mentionsStrKVs t (aupdate L src) = false
  | [], L => by intro hL _; exact hL
  | (k, v) :: rest, L => by
      intro hL hsrc
      rw [mentionsStrKVs_cons_false] at hsrc
      obtain ⟨hk, hv, hrest⟩ := hsrc
      exact noM_aupdate t rest _ (noM_aset t L k v hL hk hv) hrest

theorem noM_getD_dict (t : String) (L : List (String × Value)) (k : String)
    (c : List (String × Value)) (hL : mentionsStrKVs t L = false)
    (h : (alookup L k).getD (.dict []) = .dict c) : mentionsStrKVs t c = false := by
  cases hl : alookup L k with
  | none =>
      rw [hl] at h
      simp only [Option.getD_none] at h
      injection h with h
      subst h
      simp [mentionsStrKVs]
  | some v =>
      rw [hl] at h
      simp only [Option.getD_some] at h
      subst h
      have := (noM_lookup t L k _ hL hl).1
      simpa [mentionsStr] using this

theorem noM_key_mem (t : String) :
    ∀ (L : List (String × Value)) (kv : String × Value),
      mentionsStrKVs t L = false → kv ∈ L → (kv.1 == t) = false
  | [], kv => by intro _ h; simp at h
  | e :: rest, kv => by
      intro hL h
      obtain ⟨k0, w⟩ := e
      rw [mentionsStrKVs_cons_false] at hL
      rw [List.mem_cons] at h
      rcases h with h | h
      · subst h; exact hL.1
      · exact noM_key_mem t rest kv hL.2.2 h

theorem char_singleton_ne_platform_name (c : Char) :
    (String.mk [c] == "platform_name") = false := by
  rw [beq_eq_false_iff_ne]
  intro h
  have h13 := congrArg String.length h
  simp [String.length] at h13

theorem pySet_noM_platform (v : Value) (u : List Value)
    (h : pySet v = .ok u) (hv : mentionsStr "platform_name" v = false) :
    mentionsStrList "platform_name" u = false := by
  cases v with
  | list xs =>
      rw [pySet] at h
      by_cases hh : xs.all hashable
      · rw [if_pos hh] at h
        injection h with h
        subst h
        rw [mentionsStrList_false_iff]
        intro x hx
        rw [List.mem_dedup] at hx
        exact (mentionsStrList_false_iff _ _).mp (by simpa [mentionsStr] using hv) x hx
      · rw [if_neg hh] at h
        exact Except.noConfusion h
  | dict kvs =>
      rw [pySet] at h
      injection h with h
      subst h
      rw [mentionsStrList_false_iff]
      intro x hx
      rw [List.mem_dedup, List.mem_map] at hx
      obtain ⟨kv, hkv, hx⟩ := hx
      subst hx
      simp only [mentionsStr]
      exact noM_key_mem "platform_name" kvs kv (by simpa [mentionsStr] using hv) hkv
  | str s =>
      rw [pySet] at h
      injection h with h
      subst h
      rw [mentionsStrList_false_iff]
      intro x hx
      rw [List.mem_dedup, List.mem_map] at hx
      obtain ⟨c, _, hx⟩ := hx
      subst hx
      simpa [mentionsStr] using char_singleton_ne_platform_name c
  | null => exact Except.noConfusion h
  | int n => exact Except.noConfusion h

theorem merge_lists_noM_platform (v1 v2 : Value) (u : List Value)
    (h : merge_lists v1 v2 = .ok u)
    (h1 : mentionsStr "platform_name" v1 = false)
    (h2 : mentionsStr "platform_name" v2 = false) :
    mentionsStr "platform_name" (.list u) = false := by
  unfold merge_lists at h
  cases hp1 : pySet v1 with
  | error e => rw [hp1] at h; exact Except.noConfusion h
  | ok s1 =>
      rw [hp1] at h
      cases hp2 : pySet v2 with
      | error e => rw [hp2] at h; exact Except.noConfusion h
      | ok s2 =>
          rw [hp2] at h
          injection h with h
          subst h
          have m1 := pySet_noM_platform v1 s1 hp1 h1
          have m2 := pySet_noM_platform v2 s2 hp2 h2
          simp only [mentionsStr]
          rw [mentionsStrList_false_iff]
          intro x hx
          rw [List.mem_dedup, List.mem_append] at hx
          rcases hx with hx | hx
          · exact (mentionsStrList_false_iff _ _).mp m1 x hx
          · exact (mentionsStrList_false_iff _ _).mp m2 x hx

theorem convert_noM_platform (v : Value) (kvs : List (String × Value))
    (h : convert_host_list_to_dict v = .ok kvs)
    (hv : mentionsStr "platform_name" v = false) :
    mentionsStrKVs "platform_name" kvs = false := by
  cases v with
  | list xs =>
      rw [convert_host_list_to_dict] at h
      injection h with h
      subst h
      rw [mentionsStrKVs_cons_false]
      exact ⟨by decide, hv, by simp [mentionsStrKVs]⟩
  | dict kvs2 =>
      rw [convert_host_list_to_dict] at h
      injection h with h
      subst h
      simpa [mentionsStr] using hv
  | null => exact Except.noConfusion h
  | str s => exact Except.noConfusion h
  | int n => exact Except.noConfusion h

theorem hdm_noM (s : String) :
    ∀ (entries data out : List (String × Value)),
      host_dict_merge_loop data s entries = .ok out →
      mentionsStrKVs "platform_name" data = false →
      mentionsStrKVs "platform_name" entries = false →
      mentionsStrKVs "platform_name" out = false
  | [], data, out => by
      intro h hd _
      simp only [host_dict_merge_loop] at h
      injection h with h
      subst h
      exact hd
  | (subkey, v2) :: rest, data, out => by
      intro h hd he
      rw [mentionsStrKVs_cons_false] at he
      obtain ⟨hk, hv2, hrest⟩ := he
      simp only [host_dict_merge_loop] at h
      cases v2 with
      | list l2 =>
          simp only [] at h
          cases hm : merge_lists ((alookup data subkey).getD (.list [])) (.list l2) with
          | error e => rw [hm] at h; exact Except.noConfusion h
          | ok u =>
              rw [hm] at h
              simp only [] at h
              have hgd : mentionsStr "platform_name" ((alookup data subkey).getD (.list [])) = false := by
                cases hl : alookup data subkey with
                | none => simp [mentionsStr, mentionsStrList]
                | some w => simpa using (noM_lookup _ data subkey w hd hl).1
              have hu := merge_lists_noM_platform _ _ u hm hgd hv2
              exact hdm_noM s rest _ out h (noM_aset _ data subkey _ hd hk hu) hrest
      | dict kvs2 =>
          simp only [] at h
          cases hc : (alookup data subkey).getD (.dict []) with
          | dict c =>
              rw [hc] at h
              simp only [] at h
              have hcM := noM_getD_dict _ data subkey c hd hc
              have hupd : mentionsStrKVs "platform_name" (aupdate c kvs2) = false :=
                noM_aupdate _ kvs2 c hcM (by simpa [mentionsStr] using hv2)
              exact hdm_noM s rest _ out h
                (noM_aset _ data subkey _ hd hk (by simpa [mentionsStr] using hupd)) hrest
          | null => rw [hc] at h; exact Except.noConfusion h
          | str a => rw [hc] at h; exact Except.noConfusion h
          | int n => rw [hc] at h; exact Except.noConfusion h
          | list xs => rw [hc] at h; exact Except.noConfusion h
      | null => exact Except.noConfusion h
      | str a => exact Except.noConfusion h
      | int n => exact Except.noConfusion h

theorem hgi_noM (s : String) :
    ∀ (entries data out : List (String × Value)),
      host_group_iterate_loop data s entries = .ok out →
      mentionsStrKVs "platform_name" data = false →
      mentionsStrKVs "platform_name" entries = false →
      mentionsStrKVs "platform_name" out = false
  | [], data, out => by
      intro h hd _
      simp only [host_group_iterate_loop] at h
      injection h with h
      subst h
      exact hd
  | (key, v) :: rest, data, out => by
      intro h hd he
      rw [mentionsStrKVs_cons_false] at he
      obtain ⟨hk, hv, hrest⟩ := he
      simp only [host_group_iterate_loop] at h
      by_cases hkey : key = "_meta"
      · rw [if_pos hkey] at h
        exact hgi_noM s rest data out h hd hrest
      · rw [if_neg hkey] at h
        cases hl : alookup data key with
        | none =>
            rw [hl] at h
            simp only [] at h
            exact hgi_noM s rest _ out h (noM_aset _ data key v hd hk hv) hrest
        | some cur =>
            rw [hl] at h
            have hcur := (noM_lookup _ data key cur hd hl).1
            cases cur with
            | null =>
                simp only [] at h
                exact hgi_noM s rest _ out h (noM_aset _ data key v hd hk hv) hrest
            | str a => exact Except.noConfusion h
            | int n => exact Except.noConfusion h
            | list xs =>
                simp only [] at h
                rw [show convert_host_list_to_dict (Value.list xs) =
                  Except.ok [("hosts", Value.list xs)] from rfl] at h
                simp only [] at h
                cases hrt : raise_for_type v ["list", "dict"] (s ++ ":" ++ key) with
                | error e => rw [hrt] at h; exact Except.noConfusion h
                | ok u =>
                    rw [hrt] at h
                    simp only [] at h
                    cases hcv : convert_host_list_to_dict v with
                    | error e => rw [hcv] at h; exact Except.noConfusion h
                    | ok dd =>
                        rw [hcv] at h
                        simp only [] at h
                        cases hm : host_dict_merge [("hosts", Value.list xs)] dd s with
                        | error e => rw [hm] at h; exact Except.noConfusion h
                        | ok m =>
                            rw [hm] at h
                            simp only [] at h
                            have hcM : mentionsStrKVs "platform_name"
                                [("hosts", Value.list xs)] = false := by
                              rw [mentionsStrKVs_cons_false]
                              exact ⟨by decide, by simpa [mentionsStr] using hcur,
                                by simp [mentionsStrKVs]⟩
                            have hdd := convert_noM_platform v dd hcv hv
                            have hmM := hdm_noM s dd _ m hm hcM hdd
                            exact hgi_noM s rest _ out h
                              (noM_aset _ data key _ hd hk (by simpa [mentionsStr] using hmM))
                              hrest
            | dict kvs =>
                simp only [] at h
                rw [show convert_host_list_to_dict (Value.dict kvs) =
                  Except.ok kvs from rfl] at h
                simp only [] at h
                cases hrt : raise_for_type v ["list", "dict"] (s ++ ":" ++ key) with
                | error e => rw [hrt] at h; exact Except.noConfusion h
                | ok u =>
                    rw [hrt] at h
                    simp only [] at h
                    cases hcv : convert_host_list_to_dict v with
                    | error e => rw [hcv] at h; exact Except.noConfusion h
                    | ok dd =>
                        rw [hcv] at h
                        simp only [] at h
                        cases hm : host_dict_merge kvs dd s with
                        | error e => rw [hm] at h; exact Except.noConfusion h
                        | ok m =>
                            rw [hm] at h
                            simp only [] at h
                            have hdd := convert_noM_platform v dd hcv hv
                            have hmM := hdm_noM s dd kvs m hm
                              (by simpa [mentionsStr] using hcur) hdd
                            exact hgi_noM s rest _ out h
                              (noM_aset _ data key _ hd hk (by simpa [mentionsStr] using hmM))
                              hrest

theorem noM_pyGet (v df w : Value) (key : String)
    (h : pyGet v key df = .ok w) (hv : mentionsStr "platform_name" v = false)
    (hdf : mentionsStr "platform_name" df = false) :
    mentionsStr "platform_name" w = false := by
  cases v with
  | dict kvs =>
      rw [pyGet] at h
      injection h with h
      subst h
      cases hl : alookup kvs key with
      | none => simpa using hdf
      | some u =>
          have := (noM_lookup _ kvs key u (by simpa [mentionsStr] using hv) hl).1
          simpa [hl] using this
  | null => exact Except.noConfusion h
  | str a => exact Except.noConfusion h
  | int n => exact Except.noConfusion h
  | list xs => exact Except.noConfusion h

theorem noM_iterList (v : Value) (xs : List Value)
    (h : iterList v = .ok xs) (hv : mentionsStr "platform_name" v = false) :
    ∀ i ∈ xs, mentionsStr "platform_name" i = false := by
  cases v with
  | list ys =>
      rw [iterList] at h
      injection h with h
      subst h
      exact (mentionsStrList_false_iff _ _).mp (by simpa [mentionsStr] using hv)
  | dict kvs =>
      rw [iterList] at h
      injection h with h
      subst h
      intro i hi
      rw [List.mem_map] at hi
      obtain ⟨kv, hkv, hi⟩ := hi
      subst hi
      simpa [mentionsStr] using noM_key_mem _ kvs kv (by simpa [mentionsStr] using hv) hkv
  | str a =>
      rw [iterList] at h
      injection h with h
      subst h
      intro i hi
      rw [List.mem_map] at hi
      obtain ⟨c, _, hi⟩ := hi
      subst hi
      simpa [mentionsStr] using char_singleton_ne_platform_name c
  | null => exact Except.noConfusion h
  | int n => exact Except.noConfusion h

theorem includes_noM (config : Value) (env sect : String) (incs : List Value)
    (h : includes_of config env sect = .ok incs)
    (hc : mentionsStr "platform_name" config = false) :
    ∀ i ∈ incs, mentionsStr "platform_name" i = false := by
  unfold includes_of at h
  cases h1 : pyGet config "environments" (.dict []) with
  | error e => rw [h1] at h; exact Except.noConfusion h
  | ok envs =>
      rw [h1] at h
      simp only [] at h
      have henvs := noM_pyGet config _ envs "environments" h1 hc (by simp [mentionsStr, mentionsStrKVs])
      cases h2 : pyGet envs env (.dict []) with
      | error e => rw [h2] at h; exact Except.noConfusion h
      | ok envcfg =>
          rw [h2] at h
          simp only [] at h
          have hcfg := noM_pyGet envs _ envcfg env h2 henvs (by simp [mentionsStr, mentionsStrKVs])
          cases h3 : pyGet envcfg sect (.list []) with
          | error e => rw [h3] at h; exact Except.noConfusion h
          | ok incsv =>
              rw [h3] at h
              simp only [] at h
              have hiv := noM_pyGet envcfg _ incsv sect h3 hcfg
                (by simp [mentionsStr, mentionsStrList])
              exact noM_iterList incsv incs h hiv

theorem inc_key_ok_inv (kvs : List (String × Value)) (ks : String)
    (h : inc_key kvs = .ok ks) : alookup kvs "key" = some (.str ks) := by
  unfold inc_key at h
  cases hl : alookup kvs "key" with
  | none => rw [hl] at h; exact Except.noConfusion h
  | some v =>
      rw [hl] at h
      cases v with
      | str s => injection h with h; subst h; rfl
      | null => exact Except.noConfusion h
      | int n => exact Except.noConfusion h
      | list xs => exact Except.noConfusion h
      | dict kvs2 => exact Except.noConfusion h

theorem noM_bare_step (data : List (String × Value)) (sect : String) (temp : Value)
    (out : List (String × Value)) (h : hosts_bare_step data sect temp = .ok out)
    (hd : mentionsStrKVs "platform_name" data = false)
    (ht : mentionsStr "platform_name" temp = false) :
    mentionsStrKVs "platform_name" out = false := by
  cases temp with
  | dict t =>
      rw [hosts_bare_step] at h
      exact hgi_noM sect t data out h hd (by simpa [mentionsStr] using ht)
  | list xs =>
      rw [hosts_bare_step] at h
      by_cases hx : xs.all (· = Value.str "_meta")
      · rw [if_pos hx] at h
        injection h with h
        subst h
        exact hd
      · rw [if_neg hx] at h
        exact Except.noConfusion h
  | str s =>
      rw [hosts_bare_step] at h
      by_cases hs : s = ""
      · rw [if_pos hs] at h
        injection h with h
        subst h
        exact hd
      · rw [if_neg hs] at h
        exact Except.noConfusion h
  | null => exact Except.noConfusion h
  | int n => exact Except.noConfusion h

theorem fmh_loop_noM (fetchFn : String → Except String Value) (sect : String)
    (hf : ∀ uri v, fetchFn uri = .ok v → mentionsStr "platform_name" v = false) :
    ∀ (incs : List Value) (data out : List (String × Value)),
      fetch_merge_hosts_loop fetchFn sect data incs = .ok out →
      mentionsStrKVs "platform_name" data = false →
      (∀ i ∈ incs, mentionsStr "platform_name" i = false) →
      mentionsStrKVs "platform_name" out = false
  | [], data, out => by
      intro h hd _
      simp only [fetch_merge_hosts_loop] at h
      injection h with h
      subst h
      exact hd
  | inc :: rest, data, out => by
      intro h hd hi
      have hinc := hi inc (by simp)
      have hirest : ∀ i ∈ rest, mentionsStr "platform_name" i = false :=
        fun i hmem => hi i (by simp [hmem])
      simp only [fetch_merge_hosts_loop] at h
      cases inc with
      | str sp =>
          simp only [] at h
          cases hft : fetchFn sp with
          | error e => rw [hft] at h; exact Except.noConfusion h
          | ok temp =>
              rw [hft] at h
              simp only [] at h
              cases hb : hosts_bare_step data sect temp with
              | error e => rw [hb] at h; exact Except.noConfusion h
              | ok dd =>
                  rw [hb] at h
                  exact fmh_loop_noM fetchFn sect hf rest dd out h
                    (noM_bare_step data sect temp dd hb hd (hf sp temp hft)) hirest
      | dict kvs =>
          simp only [] at h
          cases hp : inc_path kvs with
          | error e => rw [hp] at h; exact Except.noConfusion h
          | ok p =>
              rw [hp] at h
              simp only [] at h
              cases hft : fetchFn p with
              | error e => rw [hft] at h; exact Except.noConfusion h
              | ok temp =>
                  rw [hft] at h
                  simp only [] at h
                  cases hkk : inc_key kvs with
                  | error e => rw [hkk] at h; exact Except.noConfusion h
                  | ok ks =>
                      rw [hkk] at h
                      simp only [] at h
                      have hks : (ks == "platform_name") = false := by
                        have := (noM_lookup _ kvs "key" _ (by simpa [mentionsStr] using hinc)
                          (inc_key_ok_inv kvs ks hkk)).1
                        simpa [mentionsStr] using this
                      cases hcv : convert_host_list_to_dict temp with
                      | error e => rw [hcv] at h; exact Except.noConfusion h
                      | ok conv =>
                          rw [hcv] at h
                          simp only [] at h
                          have hconv := convert_noM_platform temp conv hcv (hf p temp hft)
                          cases hc : (alookup data ks).getD (.dict []) with
                          | dict c =>
                              rw [hc] at h
                              simp only [] at h
                              cases hm : host_dict_merge c conv sect with
                              | error e => rw [hm] at h; exact Except.noConfusion h
                              | ok m =>
                                  rw [hm] at h
                                  have hcM := noM_getD_dict _ data ks c hd hc
                                  have hmM := hdm_noM sect conv c m hm hcM hconv
                                  exact fmh_loop_noM fetchFn sect hf rest _ out h
                                    (noM_aset _ data ks _ hd hks
                                      (by simpa [mentionsStr] using hmM)) hirest
                          | list l =>
                              rw [hc] at h
                              simp only [] at h
                              cases conv with
                              | nil =>
                                  have hl2 : mentionsStr "platform_name" (Value.list l) = false := by
                                    cases hlk : alookup data ks with
                                    | none =>
                                        rw [hlk] at hc
                                        simp at hc
                                    | some w =>
                                        rw [hlk] at hc
                                        simp only [Option.getD_some] at hc
                                        subst hc
                                        exact (noM_lookup _ data ks _ hd hlk).1
                                  exact fmh_loop_noM fetchFn sect hf rest _ out h
                                    (noM_aset _ data ks _ hd hks hl2) hirest
                              | cons e0 rest0 => exact Except.noConfusion h
                          | null => rw [hc] at h; exact Except.noConfusion h
                          | str a => rw [hc] at h; exact Except.noConfusion h
                          | int n => rw [hc] at h; exact Except.noConfusion h
      | null => exact Except.noConfusion h
      | int n => exact Except.noConfusion h
      | list xs => exact Except.noConfusion h

theorem vars_update_noM :
    ∀ (entries data out : List (String × Value)),
      vars_update_loop data entries = .ok out →
      mentionsStrKVs "platform_name" data = false →
      mentionsStrKVs "platform_name" entries = false →
      mentionsStrKVs "platform_name" out = false
  | [], data, out => by
      intro h hd _
      simp only [vars_update_loop] at h
      injection h with h
      subst h
      exact hd
  | (key, tv) :: rest, data, out => by
      intro h hd he
      rw [mentionsStrKVs_cons_false] at he
      obtain ⟨hk, htv, hrest⟩ := he
      simp only [vars_update_loop] at h
      cases hc : (alookup data key).getD (.dict []) with
      | dict c =>
          rw [hc] at h
          simp only [] at h
          cases tv with
          | dict t2 =>
              simp only [] at h
              have hcM := noM_getD_dict _ data key c hd hc
              have ht2 : mentionsStrKVs "platform_name" t2 = false := by
                simpa [mentionsStr] using htv
              have hupd := noM_aupdate _ t2 c hcM ht2
              exact vars_update_noM rest _ out h
                (noM_aset _ data key _ hd hk
                  (by simpa [mentionsStr] using hupd)) hrest
          | null => exact Except.noConfusion h
          | str a => exact Except.noConfusion h
          | int n => exact Except.noConfusion h
          | list xs => exact Except.noConfusion h
      | null => rw [hc] at h; exact Except.noConfusion h
      | str a => rw [hc] at h; exact Except.noConfusion h
      | int n => rw [hc] at h; exact Except.noConfusion h
      | list xs => rw [hc] at h; exact Except.noConfusion h

theorem fmv_loop_noM (fetchFn : String → Except String Value) (sect : String)
    (hf : ∀ uri v, fetchFn uri = .ok v → mentionsStr "platform_name" v = false) :
    ∀ (incs : List Value) (data out : List (String × Value)),
      fetch_merge_vars_loop fetchFn sect data incs = .ok out →
      mentionsStrKVs "platform_name" data = false →
      (∀ i ∈ incs, mentionsStr "platform_name" i = false) →
      mentionsStrKVs "platform_name" out = false
  | [], data, out => by
      intro h hd _
      simp only [fetch_merge_vars_loop] at h
      injection h with h
      subst h
      exact hd
  | inc :: rest, data, out => by
      intro h hd hi
      have hinc := hi inc (by simp)
      have hirest : ∀ i ∈ rest, mentionsStr "platform_name" i = false :=
        fun i hmem => hi i (by simp [hmem])
      simp only [fetch_merge_vars_loop] at h
      cases inc with
      | str sp =>
          simp only [] at h
          cases hft : fetchFn sp with
          | error e => rw [hft] at h; exact Except.noConfusion h
          | ok temp =>
              rw [hft] at h
              simp only [] at h
              have htemp := hf sp temp hft
              cases temp with
              | dict t =>
                  simp only [] at h
                  cases hu : vars_update_loop data t with
                  | error e => rw [hu] at h; exact Except.noConfusion h
                  | ok dd =>
                      rw [hu] at h
                      exact fmv_loop_noM fetchFn sect hf rest dd out h
                        (vars_update_noM t data dd hu hd (by simpa [mentionsStr] using htemp))
                        hirest
              | list xs =>
                  cases xs with
                  | nil => exact fmv_loop_noM fetchFn sect hf rest data out h hd hirest
                  | cons x xs0 => exact Except.noConfusion h
              | str s0 =>
                  simp only [] at h
                  by_cases hs : s0 = ""
                  · rw [if_pos hs] at h
                    exact fmv_loop_noM fetchFn sect hf rest data out h hd hirest
                  · rw [if_neg hs] at h
                    exact Except.noConfusion h
              | null => exact Except.noConfusion h
              | int n => exact Except.noConfusion h
      | dict kvs =>
          simp only [] at h
          cases hp : inc_path kvs with
          | error e => rw [hp] at h; exact Except.noConfusion h
          | ok p =>
              rw [hp] at h
              simp only [] at h
              cases hft : fetchFn p with
              | error e => rw [hft] at h; exact Except.noConfusion h
              | ok temp =>
                  rw [hft] at h
                  simp only [] at h
                  cases hkk : inc_key kvs with
                  | error e => rw [hkk] at h; exact Except.noConfusion h
                  | ok ks =>
                      rw [hkk] at h
                      simp only [] at h
                      have hks : (ks == "platform_name") = false := by
                        have := (noM_lookup _ kvs "key" _ (by simpa [mentionsStr] using hinc)
                          (inc_key_ok_inv kvs ks hkk)).1
                        simpa [mentionsStr] using this
                      cases hc : (alookup data ks).getD (.dict []) with
                      | dict c =>
                          rw [hc] at h
                          simp only [] at h
                          cases temp with
                          | dict t =>
                              simp only [] at h
                              have hcM := noM_getD_dict _ data ks c hd hc
                              have htM : mentionsStrKVs "platform_name" t = false := by
                                simpa [mentionsStr] using hf p (.dict t) hft
                              have hupd := noM_aupdate _ t c hcM htM
                              exact fmv_loop_noM fetchFn sect hf rest _ out h
                                (noM_aset _ data ks _ hd hks
                                  (by simpa [mentionsStr] using hupd)) hirest
                          | null => exact Except.noConfusion h
                          | str a => exact Except.noConfusion h
                          | int n => exact Except.noConfusion h
                          | list xs => exact Except.noConfusion h
                      | null => rw [hc] at h; exact Except.noConfusion h
                      | str a => rw [hc] at h; exact Except.noConfusion h
                      | int n => rw [hc] at h; exact Except.noConfusion h
                      | list xs => rw [hc] at h; exact Except.noConfusion h
      | null => exact Except.noConfusion h
      | int n => exact Except.noConfusion h
      | list xs => exact Except.noConfusion h

theorem fmh_noM (config : Value) (env : String) (fetchFn : String → Except String Value)
    (sect : String) (out : List (String × Value))
    (h : fetch_merge_hosts config env fetchFn sect = .ok out)
    (hc : mentionsStr "platform_name" config = false)
    (hf : ∀ uri v, fetchFn uri = .ok v → mentionsStr "platform_name" v = false) :
    mentionsStrKVs "platform_name" out = false := by
  unfold fetch_merge_hosts at h
  cases hinc : includes_of config env sect with
  | error e => rw [hinc] at h; exact Except.noConfusion h
  | ok incs =>
      rw [hinc] at h
      exact fmh_loop_noM fetchFn sect hf incs [] out h (by simp [mentionsStrKVs])
        (includes_noM config env sect incs hinc hc)

theorem fmv_noM (config : Value) (env : String) (fetchFn : String → Except String Value)
    (sect : String) (out : List (String × Value))
    (h : fetch_merge_vars config env fetchFn sect = .ok out)
    (hc : mentionsStr "platform_name" config = false)
    (hf : ∀ uri v, fetchFn uri = .ok v → mentionsStr "platform_name" v = false) :
    mentionsStrKVs "platform_name" out = false := by
  unfold fetch_merge_vars at h
  cases hinc : includes_of config env sect with
  | error e => rw [hinc] at h; exact Except.noConfusion h
  | ok incs =>
      rw [hinc] at h
      exact fmv_loop_noM fetchFn sect hf incs [] out h (by simp [mentionsStrKVs])
        (includes_noM config env sect incs hinc hc)

theorem gl_noM :
    ∀ (g invdata out : List (String × Value)),
      groupvars_loop invdata g = .ok out →
      mentionsStrKVs "platform_name" invdata = false →
      mentionsStrKVs "platform_name" g = false →
      mentionsStrKVs "platform_name" out = false
  | [], invdata, out => by
      intro h hd _
      simp only [groupvars_loop] at h
      injection h with h
      subst h
      exact hd
  | (key, gv) :: rest, invdata, out => by
      intro h hd hg
      rw [mentionsStrKVs_cons_false] at hg
      obtain ⟨hk, hgv, hrest⟩ := hg
      simp only [groupvars_loop] at h
      cases hc : (alookup invdata key).getD (.dict []) with
      | list xs =>
          rw [hc] at h
          simp only [] at h
          cases gv with
          | dict g2 =>
              simp only [] at h
              have hxs : mentionsStr "platform_name" (Value.list xs) = false := by
                cases hlk : alookup invdata key with
                | none => rw [hlk] at hc; simp at hc
                | some w =>
                    rw [hlk] at hc
                    simp only [Option.getD_some] at hc
                    subst hc
                    exact (noM_lookup _ invdata key _ hd hlk).1
              have hhosts : mentionsStrKVs "platform_name" [("hosts", Value.list xs)] = false := by
                rw [mentionsStrKVs_cons_false]
                exact ⟨by decide, hxs, by simp [mentionsStrKVs]⟩
              have hg2 : mentionsStrKVs "platform_name" (aupdate [] g2) = false :=
                noM_aupdate _ g2 [] (by simp [mentionsStrKVs]) (by simpa [mentionsStr] using hgv)
              have hinner := noM_aset _ [("hosts", Value.list xs)] "vars" (.dict (aupdate [] g2))
                hhosts (by decide) (by simpa [mentionsStr] using hg2)
              exact gl_noM rest _ out h
                (noM_aset _ invdata key _ hd hk (by simpa [mentionsStr] using hinner)) hrest
          | null => exact Except.noConfusion h
          | str a => exact Except.noConfusion h
          | int n => exact Except.noConfusion h
          | list ys => exact Except.noConfusion h
      | dict kvs =>
          rw [hc] at h
          simp only [] at h
          have hkvs := noM_getD_dict _ invdata key kvs hd hc
          cases hv2 : (alookup kvs "vars").getD (.dict []) with
          | dict vk =>
              rw [hv2] at h
              simp only [] at h
              cases gv with
              | dict g2 =>
                  simp only [] at h
                  have hvk := noM_getD_dict _ kvs "vars" vk hkvs hv2
                  have hupd := noM_aupdate _ g2 vk hvk (by simpa [mentionsStr] using hgv)
                  have hinner := noM_aset _ kvs "vars" (.dict (aupdate vk g2)) hkvs (by decide)
                    (by simpa [mentionsStr] using hupd)
                  exact gl_noM rest _ out h
                    (noM_aset _ invdata key _ hd hk (by simpa [mentionsStr] using hinner)) hrest
              | null => exact Except.noConfusion h
              | str a => exact Except.noConfusion h
              | int n => exact Except.noConfusion h
              | list ys => exact Except.noConfusion h
          | null => rw [hv2] at h; exact Except.noConfusion h
          | str a => rw [hv2] at h; exact Except.noConfusion h
          | int n => rw [hv2] at h; exact Except.noConfusion h
          | list ys => rw [hv2] at h; exact Except.noConfusion h
      | null => rw [hc] at h; exact Except.noConfusion h
      | str a => rw [hc] at h; exact Except.noConfusion h
      | int n => rw [hc] at h; exact Except.noConfusion h

theorem gl_meta_inv :
    ∀ (g invdata out : List (String × Value)),
      groupvars_loop invdata g = .ok out →
      ∀ (mm hh : List (String × Value)), alookup invdata "_meta" = some (.dict mm) →
        alookup mm "hostvars" = some (.dict hh) →
      ∃ mm2 hh2, alookup out "_meta" = some (.dict mm2) ∧
        alookup mm2 "hostvars" = some (.dict hh2)
  | [], invdata, out => by
      intro h mm hh h1 h2
      simp only [groupvars_loop] at h
      injection h with h
      subst h
      exact ⟨mm, hh, h1, h2⟩
  | (key, gv) :: rest, invdata, out => by
      intro h mm hh h1 h2
      simp only [groupvars_loop] at h
      by_cases hkey : key = "_meta"
      · subst hkey
        rw [h1] at h
        simp only [Option.getD_some] at h
        cases hv2 : (alookup mm "vars").getD (.dict []) with
        | dict vk =>
            rw [hv2] at h
            simp only [] at h
            cases gv with
            | dict g2 =>
                simp only [] at h
                refine gl_meta_inv rest _ out h (aset mm "vars" (.dict (aupdate vk g2))) hh
                  (alookup_aset_self _ _ _) ?_
                rw [alookup_aset_ne _ _ _ _ (by decide)]
                exact h2
            | null => exact Except.noConfusion h
            | str a => exact Except.noConfusion h
            | int n => exact Except.noConfusion h
            | list ys => exact Except.noConfusion h
        | null => rw [hv2] at h; exact Except.noConfusion h
        | str a => rw [hv2] at h; exact Except.noConfusion h
        | int n => rw [hv2] at h; exact Except.noConfusion h
        | list ys => rw [hv2] at h; exact Except.noConfusion h
      · repeat' split at h
        all_goals first
          | exact Except.noConfusion h
          | exact gl_meta_inv rest _ out h mm hh
              (by rw [alookup_aset_ne _ _ _ _ hkey]; exact h1) h2

theorem hv_loop_dict (x : List (String × Value)) (hv : List (String × Value)) (mhv2 : Value)
    (h : hostvars_loop (.dict x) hv = .ok mhv2) : ∃ y, mhv2 = .dict y := by
  cases hv with
  | nil =>
      simp only [hostvars_loop] at h
      injection h with h
      exact ⟨x, h.symm⟩
  | cons e rest =>
      simp only [hostvars_loop] at h
      cases hi : hostvars_inner x (e :: rest) with
      | error er => rw [hi] at h; exact Except.noConfusion h
      | ok m2 =>
          rw [hi] at h
          simp only [] at h
          injection h with h
          exact ⟨m2, h.symm⟩

/-- C2: whenever `generate_inventory` returns a document, that document holds
`_meta.hostvars` as a mapping; and when no merged fragment (nor the root
configuration) mentions `platform_name` anywhere, `all.vars.platform_name` is
exactly the environment name. -/
theorem c2_meta_hostvars_and_platform_default (config : Value) (env : String)
    (fetchFn : String → Except String Value) (d : Value)
    (hok : generate_inventory config env fetchFn = .ok d) :
    (∃ kvs, vpath d ["_meta", "hostvars"] = some (.dict kvs)) ∧
    ((mentionsStr "platform_name" config = false ∧
        ∀ uri v, fetchFn uri = .ok v → mentionsStr "platform_name" v = false) →
      vpath d ["all", "vars", "platform_name"] = some (.str env)) := by
  obtain ⟨g, hv, inv0, meta0, hv0, inv1, alld, varsd, m, mhv, mhv2,
    hg, hh, hi, hm0, hv0e, hgl, hall, hvar, hmeta, hmh, hhl, hd⟩ :=
    generate_inventory_ok_inv config env fetchFn d hok
  constructor
  · obtain ⟨mm2, hh2, hmm, hhh⟩ := gl_meta_inv g _ inv1 hgl
      (aset meta0 "hostvars" (.dict hv0)) hv0
      (alookup_aset_self _ _ _) (alookup_aset_self _ _ _)
    have hmeta2 : alookup (aset inv1 "all" (.dict (aset alld "vars" (.dict (aset varsd
        "platform_name" ((alookup varsd "platform_name").getD (.str env))))))) "_meta" =
        some (.dict mm2) := by
      rw [alookup_aset_ne _ _ _ _ (by decide)]
      exact hmm
    have hmeq : m = mm2 := by
      have h2x := hmeta.symm.trans hmeta2
      simp only [Option.some.injEq, Value.dict.injEq] at h2x
      exact h2x
    subst hmeq
    have hmhveq : mhv = .dict hh2 := by
      have h3x := hmh.symm.trans hhh
      simp only [Option.some.injEq] at h3x
      exact h3x
    subst hmhveq
    obtain ⟨y, hy⟩ := hv_loop_dict hh2 hv mhv2 hhl
    subst hy
    subst hd
    refine ⟨y, ?_⟩
    simp only [vpath, alookup_aset_self]
  · intro ⟨hc, hf⟩
    have h0 := fmh_noM config env fetchFn "include_hosts" inv0 hi hc hf
    have hgM := fmv_noM config env fetchFn "include_group_vars" g hg hc hf
    have hmeta0 := noM_getD_dict _ inv0 "_meta" meta0 h0 hm0
    have hhv0 := noM_getD_dict _ meta0 "hostvars" hv0 hmeta0 hv0e
    have hMinner := noM_aset _ meta0 "hostvars" (.dict hv0) hmeta0 (by decide)
      (by simpa [mentionsStr] using hhv0)
    have hM := noM_aset _ inv0 "_meta" (.dict (aset meta0 "hostvars" (.dict hv0))) h0
      (by decide) (by simpa [mentionsStr] using hMinner)
    have hinv1 := gl_noM g _ inv1 hgl hM hgM
    have halld := noM_getD_dict _ inv1 "all" alld hinv1 hall
    have hvarsd := noM_getD_dict _ alld "vars" varsd halld hvar
    have hpn : alookup varsd "platform_name" = none := noM_lookup_none _ varsd hvarsd
    subst hd
    simp only [vpath]
    rw [alookup_aset_ne _ _ _ _ (show "_meta" ≠ "all" by decide), alookup_aset_self]
    simp [vpath, alookup_aset_self, hpn]

/-- Witness for C2: the empty root configuration with a failing fetch
capability produces the empty-but-valid document, whose `_meta.hostvars` is a
mapping and whose `all.vars.platform_name` is the environment name. -/
theorem c2_meta_hostvars_and_platform_default_witness :
    (∃ kvs, vpath (.dict [("_meta", .dict [("hostvars", .dict [])]),
        ("all", .dict [("vars", .dict [("platform_name", .str "prod")])])])
      ["_meta", "hostvars"] = some (.dict kvs)) ∧
    vpath (.dict [("_meta", .dict [("hostvars", .dict [])]),
        ("all", .dict [("vars", .dict [("platform_name", .str "prod")])])])
      ["all", "vars", "platform_name"] = some (.str "prod") := by
  have H := c2_meta_hostvars_and_platform_default (.dict []) "prod"
    (fun _ => .error "404")
    (.dict [("_meta", .dict [("hostvars", .dict [])]),
      ("all", .dict [("vars", .dict [("platform_name", .str "prod")])])])
    (by rfl)
  exact ⟨H.1, H.2 ⟨by simp [mentionsStr, mentionsStrKVs],
    fun uri v hv => Except.noConfusion hv⟩⟩

/-! ## C4: does the merge mutate its inputs?

The pure value model cannot see Python's object aliasing, so the frame claim
is settled on the heap model `PyHeap`.  `dict1.copy()` is shallow: the copy's
entries still reference `dict1`'s nested dict objects, and
`data[subkey].update(...)` writes through such a reference, mutating a nested
sub-mapping of the base argument in place.  The counterexample below shows it
on a two-level base; the amended frame theorem shows what *does* hold: the
top-level dict objects of base and incoming are never written. -/

namespace PyHeap

theorem hlookup_mem : ∀ (o : Obj) (k : String) (v : HVal),
    hlookup o k = some v → (k, v) ∈ o
  | [], k, v => by intro h; exact Option.noConfusion h
  | (k0, w) :: rest, k, v => by
      intro h
      by_cases h0 : k0 = k
      · subst h0
        rw [hlookup, if_pos rfl] at h
        injection h with h
        subst h
        exact List.mem_cons_self _ _
      · rw [hlookup, if_neg h0] at h
        exact List.mem_cons_of_mem _ (hlookup_mem rest k v h)

theorem mem_hset_val : ∀ (o : Obj) (k : String) (v : HVal) (kv : String × HVal),
    kv ∈ hset o k v → kv.2 = v ∨ kv ∈ o
  | [], k, v, kv => by
      intro h
      rw [hset] at h
      rcases List.mem_singleton.mp h with h
      subst h
      exact Or.inl rfl
  | (k0, w) :: rest, k, v, kv => by
      intro h
      rw [hset] at h
      by_cases h0 : k0 = k
      · rw [if_pos h0] at h
        rcases List.mem_cons.mp h with h | h
        · subst h; exact Or.inl rfl
        · exact Or.inr (List.mem_cons_of_mem _ h)
      · rw [if_neg h0] at h
        rcases List.mem_cons.mp h with h | h
        · subst h; exact Or.inr (List.mem_cons_self _ _)
        · rcases mem_hset_val rest k v kv h with h | h
          · exact Or.inl h
          · exact Or.inr (List.mem_cons_of_mem _ h)

theorem pySetH_hashable (st : Store) (w : HVal) (u : List HVal)
    (h : pySetH st w = .ok u) : ∀ x ∈ u, hashableH x = true := by
  cases w with
  | list xs =>
      rw [pySetH] at h
      by_cases hh : xs.all hashableH
      · rw [if_pos hh] at h
        injection h with h
        subst h
        intro x hx
        exact List.all_eq_true.mp hh x (List.mem_dedup.mp hx)
      · rw [if_neg hh] at h
        exact Except.noConfusion h
  | ref a =>
      rw [pySetH] at h
      cases hg : st.get? a with
      | none => rw [hg] at h; exact Except.noConfusion h
      | some o =>
          rw [hg] at h
          injection h with h
          subst h
          intro x hx
          rw [List.mem_dedup, List.mem_map] at hx
          obtain ⟨kv, _, hx⟩ := hx
          subst hx
          rfl
  | scalar s =>
      rw [pySetH] at h
      injection h with h
      subst h
      intro x hx
      rw [List.mem_dedup, List.mem_map] at hx
      obtain ⟨c, _, hx⟩ := hx
      subst hx
      rfl
  | null => exact Except.noConfusion h

theorem merge_listsH_hashable (st : Store) (v1 v2 : HVal) (u : List HVal)
    (h : merge_listsH st v1 v2 = .ok u) : ∀ x ∈ u, hashableH x = true := by
  unfold merge_listsH at h
  cases h1 : pySetH st v1 with
  | error e => rw [h1] at h; exact Except.noConfusion h
  | ok s1 =>
      rw [h1] at h
      cases h2 : pySetH st v2 with
      | error e => rw [h2] at h; exact Except.noConfusion h
      | ok s2 =>
          rw [h2] at h
          injection h with h
          subst h
          intro x hx
          rcases List.mem_append.mp (List.mem_dedup.mp hx) with hx | hx
          · exact pySetH_hashable st v1 s1 h1 x hx
          · exact pySetH_hashable st v2 s2 h2 x hx

/-- Frame property of the merge loop: every store write hits either the fresh
data object (at `dataAddr ≥ n0`), a fresh allocation (address above
`dataAddr`), or an address referenced from the data object's entries — which
always lies in `S` (the base object's top-level references) or above
`dataAddr`.  Addresses below `n0` and outside `S` are untouched. -/
theorem hdm_heap_frame (sect : String) (n0 : Nat) (S : List Nat)
    (hS : ∀ a ∈ S, a < n0) :
    ∀ (entries : List (String × HVal)) (st : Store) (dataAddr : Nat) (stF : Store),
      host_dict_merge_loop st dataAddr sect entries = .ok stF →
      n0 ≤ dataAddr → dataAddr < st.length →
      (∀ o, st.get? dataAddr = some o → ∀ kv, kv ∈ o → ∀ a, kv.2 = HVal.ref a →
        a ∈ S ∨ dataAddr < a) →
      ∀ b, b < n0 → b ∉ S → stF.get? b = st.get? b
  | [], st, dataAddr, stF => by
      intro h _ _ _ b _ _
      simp only [host_dict_merge_loop] at h
      injection h with h
      subst h
      rfl
  | (subkey, v2) :: rest, st, dataAddr, stF => by
      intro h hda hlen hgood b hb hbS
      simp only [host_dict_merge_loop] at h
      cases hobj : st.get? dataAddr with
      | none => rw [hobj] at h; exact Except.noConfusion h
      | some dataObj =>
          rw [hobj] at h
          simp only [] at h
          have hbda : b ≠ dataAddr := by omega
          cases v2 with
          | list l2 =>
              simp only [] at h
              cases hm : merge_listsH st ((hlookup dataObj subkey).getD (.list [])) (.list l2) with
              | error e => rw [hm] at h; exact Except.noConfusion h
              | ok u =>
                  rw [hm] at h
                  simp only [] at h
                  have hstep := hdm_heap_frame sect n0 S hS rest _ dataAddr stF h hda
                    (by simp [List.length_set]; omega) ?good b hb hbS
                  · rw [hstep, List.get?_set_ne _ _ (fun hx => hbda hx.symm)]
                  case good =>
                    intro o ho kv hkv a ha
                    rw [List.get?_set_eq_of_lt _ hlen] at ho
                    injection ho with ho
                    subst ho
                    rcases mem_hset_val dataObj subkey (.list u) kv hkv with hkv2 | hkv2
                    · rw [hkv2] at ha; exact absurd ha (by simp)
                    · exact hgood dataObj hobj kv hkv2 a ha
          | ref a2 =>
              simp only [] at h
              cases hl : hlookup dataObj subkey with
              | some w =>
                  rw [hl] at h
                  cases w with
                  | ref a1 =>
                      simp only [] at h
                      cases ho1 : st.get? a1 with
                      | none =>
                          rw [ho1] at h
                          simp only [] at h
                          exact Except.noConfusion h
                      | some o1x =>
                          rw [ho1] at h
                          cases ho2 : st.get? a2 with
                          | none =>
                              rw [ho2] at h
                              simp only [] at h
                              exact Except.noConfusion h
                          | some o2x =>
                              rw [ho2] at h
                              simp only [] at h
                              have ha1 : a1 ∈ S ∨ dataAddr < a1 :=
                                hgood dataObj hobj (subkey, .ref a1)
                                  (hlookup_mem dataObj subkey _ hl) a1 rfl
                              have hba1 : b ≠ a1 := by
                                rcases ha1 with ha1 | ha1
                                · intro hx; subst hx; exact hbS ha1
                                · omega
                              have hda1 : dataAddr ≠ a1 := by
                                rcases ha1 with ha1 | ha1
                                · have := hS a1 ha1; omega
                                · omega
                              have hstep := hdm_heap_frame sect n0 S hS rest _ dataAddr stF h
                                hda (by simp [List.length_set]; omega) ?good2 b hb hbS
                              · rw [hstep, List.get?_set_ne _ _ (fun hx => hba1 hx.symm)]
                              case good2 =>
                                intro o ho kv hkv a ha
                                rw [List.get?_set_ne _ _ (Ne.symm hda1)] at ho
                                rw [hobj] at ho
                                injection ho with ho
                                subst ho
                                exact hgood dataObj hobj kv hkv a ha
                  | scalar s0 =>
                      simp only [] at h
                      exact Except.noConfusion h
                  | null =>
                      simp only [] at h
                      exact Except.noConfusion h
                  | list xs =>
                      simp only [] at h
                      exact Except.noConfusion h
              | none =>
                  rw [hl] at h
                  simp only [] at h
                  cases ho2 : st.get? a2 with
                  | none =>
                      rw [ho2] at h
                      simp only [] at h
                      exact Except.noConfusion h
                  | some o2x =>
                      rw [ho2] at h
                      simp only [] at h
                      have hlen2 : dataAddr < (List.set (st ++ [hupdate [] o2x]) dataAddr
                          (hset dataObj subkey (HVal.ref st.length))).length := by
                        simp [List.length_set]
                        omega
                      have hstep := hdm_heap_frame sect n0 S hS rest _ dataAddr stF h hda
                        hlen2 ?good3 b hb hbS
                      · rw [hstep, List.get?_set_ne _ _ (fun hx => hbda hx.symm),
                          List.get?_append (by omega)]
                      case good3 =>
                        intro o ho kv hkv a ha
                        rw [List.get?_set_eq_of_lt _ (by simp; omega)] at ho
                        injection ho with ho
                        subst ho
                        rcases mem_hset_val dataObj subkey (.ref st.length) kv hkv with hkv2 | hkv2
                        · rw [hkv2] at ha
                          injection ha with ha
                          subst ha
                          right
                          omega
                        · exact hgood dataObj hobj kv hkv2 a ha
          | scalar s0 =>
              simp only [] at h
              exact Except.noConfusion h
          | null =>
              simp only [] at h
              exact Except.noConfusion h

end PyHeap

/-- The store of the C4 counterexample: `dict1 = {a: {x: 1}}` is the object
at address 1 (its nested sub-mapping at address 0), `dict2 = {a: {y: 2}}` is
the object at address 3 (its nested sub-mapping at address 2). -/
def c4st0 : PyHeap.Store :=
  [[("x", .scalar "1")], [("a", .ref 0)], [("y", .scalar "2")], [("a", .ref 2)]]

/-- The store after `host_dict_merge(dict1, dict2, 'sec')`: the result is the
fresh object at address 4, but the object at address 0 — `dict1`'s nested
sub-mapping — has been updated in place. -/
def c4st1 : PyHeap.Store :=
  [[("x", .scalar "1"), ("y", .scalar "2")], [("a", .ref 0)], [("y", .scalar "2")],
    [("a", .ref 2)], [("a", .ref 0)]]

/-- C4 counterexample: `host_dict_merge` does *not* leave its base argument's
nested sub-mappings unchanged.  Merging `{a: {y: 2}}` into `{a: {x: 1}}`
succeeds, but the store object holding base's nested `{x: 1}` (address 0,
referenced from the base dict at address 1) is mutated in place to
`{x: 1, y: 2}` — the consequence of `dict1.copy()` being shallow followed by
`data[subkey].update(...)`. -/
theorem c4_shallow_copy_mutates_base_counterexample :
    PyHeap.host_dict_merge c4st0 1 3 "sec" = .ok (c4st1, 4) ∧
    c4st0.get? 1 = some [("a", .ref 0)] ∧
    c4st0.get? 0 = some [("x", .scalar "1")] ∧
    c4st1.get? 0 = some [("x", .scalar "1"), ("y", .scalar "2")] ∧
    c4st1.get? 0 ≠ c4st0.get? 0 := by
  refine ⟨by rfl, by rfl, by rfl, by rfl, ?_⟩
  intro h
  rw [show c4st1.get? 0 = some [("x", .scalar "1"), ("y", .scalar "2")] from rfl,
    show c4st0.get? 0 = some [("x", .scalar "1")] from rfl] at h
  have hlen := congrArg (Option.map List.length) h
  simp at hlen

/-- C4 amended: the merge returns a fresh mapping and leaves the *top-level*
dict objects of base and incoming unchanged (the shallow copy never writes
through the addresses of the two arguments themselves, provided the base does
not directly reference itself or the incoming argument); nested sub-mappings
of the base, however, may be mutated in place, and the result is allocated at
a fresh address. -/
theorem c4_amended_top_level_frame (st : PyHeap.Store) (d1 d2 : Nat) (sect : String)
    (o1 o2 : PyHeap.Obj) (st2 : PyHeap.Store) (da : Nat)
    (h1 : st.get? d1 = some o1) (h2 : st.get? d2 = some o2)
    (hd1 : d1 ∉ PyHeap.refsOf o1) (hd2 : d2 ∉ PyHeap.refsOf o1)
    (hvalid : ∀ a ∈ PyHeap.refsOf o1, a < st.length)
    (h : PyHeap.host_dict_merge st d1 d2 sect = .ok (st2, da)) :
    st2.get? d1 = some o1 ∧ st2.get? d2 = some o2 ∧ da = st.length := by
  unfold PyHeap.host_dict_merge at h
  rw [h1, h2] at h
  simp only [] at h
  cases hloop : PyHeap.host_dict_merge_loop (st ++ [o1]) st.length sect o2 with
  | error e => rw [hloop] at h; exact Except.noConfusion h
  | ok stF =>
      rw [hloop] at h
      simp only [] at h
      injection h with h
      injection h with hA hB
      subst hA
      subst hB
      have hlt1 : d1 < st.length := by
        by_contra hc
        rw [List.get?_eq_none.mpr (Nat.le_of_not_lt hc)] at h1
        exact Option.noConfusion h1
      have hlt2 : d2 < st.length := by
        by_contra hc
        rw [List.get?_eq_none.mpr (Nat.le_of_not_lt hc)] at h2
        exact Option.noConfusion h2
      have hgood : ∀ o, (st ++ [o1]).get? st.length = some o → ∀ kv, kv ∈ o →
          ∀ a, kv.2 = PyHeap.HVal.ref a → a ∈ PyHeap.refsOf o1 ∨ st.length < a := by
        intro o ho kv hkv a ha
        rw [List.get?_concat_length] at ho
        injection ho with ho
        subst ho
        left
        exact List.mem_filterMap.mpr ⟨kv, hkv, by simp [ha]⟩
      have hf1 := PyHeap.hdm_heap_frame sect st.length (PyHeap.refsOf o1) hvalid o2
        (st ++ [o1]) st.length stF hloop (le_refl _) (by simp) hgood d1 hlt1 hd1
      have hf2 := PyHeap.hdm_heap_frame sect st.length (PyHeap.refsOf o1) hvalid o2
        (st ++ [o1]) st.length stF hloop (le_refl _) (by simp) hgood d2 hlt2 hd2
      rw [List.get?_append hlt1, h1] at hf1
      rw [List.get?_append hlt2, h2] at hf2
      exact ⟨hf1, hf2, rfl⟩

/-- Witness for C4 amended: the counterexample store itself — the top-level
objects at addresses 1 (base) and 3 (incoming) are unchanged and the result
is fresh, even though the nested object at address 0 was mutated. -/
theorem c4_amended_top_level_frame_witness :
    c4st1.get? 1 = some [("a", .ref 0)] ∧
    c4st1.get? 3 = some [("a", .ref 2)] ∧
    (4 : Nat) = c4st0.length :=
  c4_amended_top_level_frame c4st0 1 3 "sec" [("a", .ref 0)] [("a", .ref 2)] c4st1 4
    (by rfl) (by rfl) (by decide) (by decide) (by decide) (by rfl)
